import Mathlib

/-!
# ocs-osd-deployer: the lock-step reconciler wrapper

A shallow embedding of `controllers/syncReconciler.go`:

* the secret watch map function and the watch configuration built by
  `SyncReconciler.SetupWithManager`;
* `SyncReconciler.Reconcile` and `SyncReconciler.RunReconcile` as a step
  function over program counters, with the two unbuffered channels
  `startReconcile` and `doneReconcile` as rendezvous steps.
-/

namespace OcsOsdDeployer

/-! ## Requests and object metadata -/

/-- Go `types.NamespacedName`. -/
structure NamespacedName where
  Namespace : String
  Name : String
  deriving DecidableEq, Repr

/-- Go `reconcile.Request` (`ctrl.Request`). -/
structure Request where
  NamespacedName : NamespacedName
  deriving DecidableEq, Repr

/-- The object kinds the controller watches. -/
inductive Kind where
  | ManagedOCS
  | StorageCluster
  | Secret
  deriving DecidableEq, Repr

/-- Go `metav1.OwnerReference`, reduced to the fields the owner handler reads. -/
structure OwnerReference where
  Kind : Kind
  Name : String
  Controller : Bool
  deriving DecidableEq, Repr

/-- Go `metav1.Object`, reduced to the metadata the controller setup reads. -/
structure ObjectMeta where
  Name : String
  Namespace : String
  Generation : Int
  ResourceVersion : String
  Labels : List (String × String)
  OwnerReferences : List OwnerReference
  deriving DecidableEq, Repr

/-- Go `handler.MapObject`: the metadata and the payload of the notified object. -/
structure MapObject where
  Meta : ObjectMeta
  Object : List (String × String)
  deriving DecidableEq, Repr

/-- The fields of `ManagedOCSReconciler` that `syncReconciler.go` reads. -/
structure ManagedOCSReconciler where
  AddonParamSecretName : String
  deriving DecidableEq, Repr

/-- The `ToRequestsFunc` closure of `addonParamsSecretWatchHandler`
(`SetupWithManager`, lines 61-71); Go `nil` is the empty list. -/
def addonParamsSecretWatchHandler (r : ManagedOCSReconciler) (obj : MapObject) : List Request :=
  if obj.Meta.Name = r.AddonParamSecretName then
    [{ NamespacedName := { Name := "managedocs", Namespace := obj.Meta.Namespace } }]
  else
    []

/-! ## The watch configuration built by `SetupWithManager` -/

/-- Go `controller.Options`, reduced to the field `SetupWithManager` sets. -/
structure Options where
  MaxConcurrentReconciles : Nat
  deriving DecidableEq, Repr

/-- The kind of change a notification reports. -/
inductive ChangeType where
  | Create
  | Update
  | Delete
  deriving DecidableEq, Repr

/-- A change notification of a watched object: the object as notified and,
for an update, the metadata it had before the change (for a create or a
delete `MetaOld` repeats the metadata of the object). -/
structure Notification where
  Kind : Kind
  Change : ChangeType
  MetaOld : ObjectMeta
  Obj : MapObject
  deriving DecidableEq, Repr

/-- The predicates `SetupWithManager` uses. -/
inductive Predicate where
  | GenerationChangedPredicate
  deriving DecidableEq, Repr

/-- Modelled from the spec: the body of `predicate.GenerationChangedPredicate`
belongs to the controller-runtime library and is not among the sources. Spec
4.1: the filter passes an update that changed the generation counter (a spec
change; the counter only ever increases) and suppresses a pure status-only
re-write, which leaves the generation as it was. The spec names no filtering
of creations and deletions, which pass. -/
def Predicate.admits : Predicate → Notification → Bool
  | .GenerationChangedPredicate, n =>
    match n.Change with
    | .Update => n.Obj.Meta.Generation != n.MetaOld.Generation
    | .Create => true
    | .Delete => true

/-- The event handlers `SetupWithManager` attaches to its watches. -/
inductive EventHandler where
  | EnqueueRequestForObject
  | EnqueueRequestForOwner (OwnerType : Kind) (IsController : Bool)
  | EnqueueRequestsFromMapFunc (ToRequests : MapObject → List Request)

/-- Modelled from the spec: the handlers belong to the controller-runtime
library and are not among the sources. Spec 4.2 (Trigger Mapper): a
notification of the managed object yields a work item naming that same
object; a notification of an owned object yields a work item naming the
owner, resolved through the owner reference, in the namespace of the owned
object; a mapped notification yields what the map function returns. -/
def EventHandler.requests : EventHandler → MapObject → List Request
  | .EnqueueRequestForObject, obj =>
    [{ NamespacedName := { Name := obj.Meta.Name, Namespace := obj.Meta.Namespace } }]
  | .EnqueueRequestForOwner ownerType isController, obj =>
    (obj.Meta.OwnerReferences.filter
        (fun ref => decide (ref.Kind = ownerType) && (!isController || ref.Controller))).map
      (fun ref => { NamespacedName := { Name := ref.Name, Namespace := obj.Meta.Namespace } })
  | .EnqueueRequestsFromMapFunc toRequests, obj => toRequests obj

/-- One watch of the controller: the watched kind, the handler that turns a
notification into requests and the predicates that filter the notifications. -/
structure Watch where
  Kind : Kind
  Handler : EventHandler
  Predicates : List Predicate

/-- A notification passes a watch when every predicate of the watch admits it. -/
def Watch.admits (w : Watch) (n : Notification) : Bool :=
  w.Predicates.all (fun p => p.admits n)

/-- The requests one watch enqueues for a notification. -/
def Watch.enqueue (w : Watch) (n : Notification) : List Request :=
  if w.Kind = n.Kind ∧ w.admits n = true then w.Handler.requests n.Obj else []

/-- The controller as built: its options and its watches. -/
structure Controller where
  Options : Options
  Watches : List Watch

/-- The requests the controller enqueues for a notification. -/
def Controller.enqueue (c : Controller) (n : Notification) : List Request :=
  c.Watches.flatMap (fun w => w.enqueue n)

/-- A notification is admitted when a watch of its kind admits it. -/
def Controller.admits (c : Controller) (n : Notification) : Bool :=
  c.Watches.any (fun w => decide (w.Kind = n.Kind) && w.admits n)

/-- Go `builder.Builder`: what the builder chain of `SetupWithManager` collects. -/
structure Builder where
  forInput : Option (Kind × List Predicate)
  ownsInput : List (Kind × List Predicate)
  watchesInput : List (Kind × EventHandler × List Predicate)
  ctrlOptions : Options

/-- Go `ctrl.NewControllerManagedBy(mgr)`. -/
def NewControllerManagedBy : Builder :=
  { forInput := none, ownsInput := [], watchesInput := [],
    ctrlOptions := { MaxConcurrentReconciles := 0 } }

/-- Go `Builder.WithOptions`. -/
def Builder.WithOptions (b : Builder) (options : Options) : Builder :=
  { b with ctrlOptions := options }

/-- Go `Builder.For(object, opts...)`, the options being `builder.WithPredicates`. -/
def Builder.For (b : Builder) (object : Kind) (predicates : List Predicate) : Builder :=
  { b with forInput := some (object, predicates) }

/-- Go `Builder.Owns(object, opts...)`. -/
def Builder.Owns (b : Builder) (object : Kind) (predicates : List Predicate) : Builder :=
  { b with ownsInput := b.ownsInput ++ [(object, predicates)] }

/-- Go `Builder.Watches(src, eventhandler, opts...)`, the source being a `source.Kind`. -/
def Builder.Watches (b : Builder) (src : Kind) (eventhandler : EventHandler)
    (predicates : List Predicate) : Builder :=
  { b with watchesInput := b.watchesInput ++ [(src, eventhandler, predicates)] }

/-- Modelled from the spec: `Builder.Complete` belongs to the
controller-runtime library and is not among the sources. Spec 4.1 and 4.2:
the managed kind is watched with its own predicates and enqueues the object
itself, an owned kind enqueues its controlling owner of the managed kind, and
every other watch uses the handler it was given; each watch carries only the
predicates it was declared with. Without a managed kind the build fails. -/
def Builder.Complete (b : Builder) : Option Controller :=
  match b.forInput with
  | none => none
  | some (forKind, forPredicates) =>
    some
      { Options := b.ctrlOptions,
        Watches :=
          [{ Kind := forKind, Handler := .EnqueueRequestForObject, Predicates := forPredicates }]
          ++ b.ownsInput.map (fun own =>
              { Kind := own.1, Handler := .EnqueueRequestForOwner forKind true,
                Predicates := own.2 })
          ++ b.watchesInput.map (fun wt =>
              { Kind := wt.1, Handler := wt.2.1, Predicates := wt.2.2 }) }

/-- The options `SetupWithManager` passes to the builder (lines 53-55). -/
def ctrlOptions : Options := { MaxConcurrentReconciles := 1 }

/-- The predicates `SetupWithManager` attaches to the ManagedOCS watch (lines 56-58). -/
def managedOCSPredicates : List Predicate := [.GenerationChangedPredicate]

/-- Go `SyncReconciler.SetupWithManager` (lines 52-81): the builder chain;
`none` stands for the error `Complete` returns. -/
def SetupWithManager (r : ManagedOCSReconciler) : Option Controller :=
  (((NewControllerManagedBy.WithOptions ctrlOptions).For
        Kind.ManagedOCS managedOCSPredicates).Owns
      Kind.StorageCluster []).Watches
    Kind.Secret (.EnqueueRequestsFromMapFunc (addonParamsSecretWatchHandler r)) []
    |>.Complete

/-! ## The lock-step wrapper: `Reconcile` and `RunReconcile` as a step function -/

/-- Go `ctrl.Result`. -/
structure Result where
  Requeue : Bool
  RequeueAfter : Int
  deriving DecidableEq, Repr

/-- The pair `(ctrl.Result, error)` a reconcile call returns; a nil error is `none`. -/
structure Outcome where
  result : Result
  err : Option String
  deriving DecidableEq, Repr

/-- The program counter of a controller worker goroutine, by the lines of
`SyncReconciler.Reconcile` (25-34). The ticket of a pass numbers the start
signal that unblocked it (a history variable; the code does not read it). -/
inductive WorkerPc where
  /-- Outside `Reconcile`: the worker waits for a work item. -/
  | idle
  /-- Line 27, blocked on the receive of `startReconcile`. -/
  | waitStart (req : Request)
  /-- Lines 28-29, the signal is received and the inner reconciler not yet invoked. -/
  | callInner (req : Request) (ticket : Nat)
  /-- Line 29, the call of `r.ManagedOCSReconciler.Reconcile(req)` is in flight. -/
  | running (req : Request) (ticket : Nat)
  /-- Line 31, blocked on the send to `doneReconcile`. -/
  | sendDone (req : Request) (out : Outcome) (ticket : Nat)
  /-- Line 33, `return result, err`. -/
  | ret (req : Request) (out : Outcome)
  deriving DecidableEq, Repr

/-- The program counter of a goroutine calling `SyncReconciler.RunReconcile`
(lines 36-42). The ticket numbers the start signal the caller sent (a history
variable; the code does not read it). -/
inductive CallerPc where
  /-- Outside `RunReconcile`. -/
  | idle
  /-- Line 38, blocked on the send to `startReconcile`. -/
  | sendStart
  /-- Line 40, blocked on the receive of `doneReconcile`. -/
  | recvDone (ticket : Nat)
  /-- Line 41, the done signal is received and the call about to return. -/
  | finishing (ticket : Nat)
  deriving DecidableEq, Repr

/-- The state of the wrapper: the workers of the controller, the goroutines
that call `RunReconcile`, the object store the inner reconciler works on, and
the history of the run. -/
structure State (σ : Type) where
  workers : List WorkerPc
  callers : List CallerPc
  store : σ
  /-- Number of start signals that went through `startReconcile`. -/
  accepted : Nat
  /-- The wrapper calls made: worker and argument. -/
  reconcileCalls : List (Nat × Request)
  /-- The inner calls started: worker and argument. -/
  innerCalls : List (Nat × Request)
  /-- The inner calls returned: worker, argument and outcome. -/
  innerReturns : List (Nat × Request × Outcome)
  /-- The done signals that went through `doneReconcile`: the ticket of the
  pass that sent it and the ticket of the caller that received it. -/
  released : List (Nat × Nat)
  /-- The wrapper calls returned: worker, argument and returned pair. -/
  reconcileReturns : List (Nat × Request × Outcome)
  /-- Number of `RunReconcile` calls returned. -/
  runReconcileReturns : Nat

/-- The steps of the wrapper. A channel operation is a rendezvous of one
sender and one receiver, both channels being unbuffered (`make(chan struct{})`
in `NewSyncReconciler`). -/
inductive Event where
  /-- The controller hands a work item to worker `w`: `Reconcile(req)` is called. -/
  | dequeue (w : Nat) (req : Request)
  /-- Goroutine `c` calls `RunReconcile`. -/
  | runReconcile (c : Nat)
  /-- Caller `c` sends on `startReconcile` (line 38), worker `w` receives (line 27). -/
  | start (c w : Nat)
  /-- Worker `w` invokes the inner reconciler (line 29). -/
  | invoke (w : Nat)
  /-- The inner reconciler returns to worker `w` (line 29). -/
  | innerReturn (w : Nat)
  /-- Worker `w` sends on `doneReconcile` (line 31), caller `c` receives (line 40). -/
  | done (w c : Nat)
  /-- `Reconcile` returns on worker `w` (line 33). -/
  | reconcileReturn (w : Nat)
  /-- `RunReconcile` returns to goroutine `c` (line 42). -/
  | runReconcileReturn (c : Nat)
  deriving DecidableEq, Repr

/-- The inner reconciler `ManagedOCSReconciler.Reconcile`, a parameter of the
wrapper: from a request and the object store to the returned pair and the
store it leaves. -/
abbrev Inner (σ : Type) := Request → σ → Outcome × σ

/-- One step of the wrapper; `none` when the step is not enabled. -/
def step {σ : Type} (inner : Inner σ) (s : State σ) : Event → Option (State σ)
  | .dequeue w req =>
    match s.workers[w]? with
    | some .idle =>
      some { s with
        workers := s.workers.set w (.waitStart req),
        reconcileCalls := s.reconcileCalls ++ [(w, req)] }
    | _ => none
  | .runReconcile c =>
    match s.callers[c]? with
    | some .idle => some { s with callers := s.callers.set c .sendStart }
    | _ => none
  | .start c w =>
    match s.callers[c]?, s.workers[w]? with
    | some .sendStart, some (.waitStart req) =>
      some { s with
        callers := s.callers.set c (.recvDone s.accepted),
        workers := s.workers.set w (.callInner req s.accepted),
        accepted := s.accepted + 1 }
    | _, _ => none
  | .invoke w =>
    match s.workers[w]? with
    | some (.callInner req t) =>
      some { s with
        workers := s.workers.set w (.running req t),
        innerCalls := s.innerCalls ++ [(w, req)] }
    | _ => none
  | .innerReturn w =>
    match s.workers[w]? with
    | some (.running req t) =>
      some { s with
        workers := s.workers.set w (.sendDone req (inner req s.store).1 t),
        store := (inner req s.store).2,
        innerReturns := s.innerReturns ++ [(w, req, (inner req s.store).1)] }
    | _ => none
  | .done w c =>
    match s.workers[w]?, s.callers[c]? with
    | some (.sendDone req out t), some (.recvDone u) =>
      some { s with
        workers := s.workers.set w (.ret req out),
        callers := s.callers.set c (.finishing u),
        released := s.released ++ [(t, u)] }
    | _, _ => none
  | .reconcileReturn w =>
    match s.workers[w]? with
    | some (.ret req out) =>
      some { s with
        workers := s.workers.set w .idle,
        reconcileReturns := s.reconcileReturns ++ [(w, req, out)] }
    | _ => none
  | .runReconcileReturn c =>
    match s.callers[c]? with
    | some (.finishing _) =>
      some { s with
        callers := s.callers.set c .idle,
        runReconcileReturns := s.runReconcileReturns + 1 }
    | _ => none

/-- A run: the steps of a list of events, in order. -/
def run {σ : Type} (inner : Inner σ) : State σ → List Event → Option (State σ)
  | s, [] => some s
  | s, e :: es => (step inner s e).bind (fun s1 => run inner s1 es)

/-- The state after `NewSyncReconciler` and `SetupWithManager`: as many idle
workers as the controller options allow concurrent reconciles, `callers`
goroutines that may call `RunReconcile`, nothing sent or called yet. -/
def initial {σ : Type} (options : Options) (callers : Nat) (store : σ) : State σ :=
  { workers := List.replicate options.MaxConcurrentReconciles .idle,
    callers := List.replicate callers .idle,
    store := store,
    accepted := 0,
    reconcileCalls := [],
    innerCalls := [],
    innerReturns := [],
    released := [],
    reconcileReturns := [],
    runReconcileReturns := 0 }

/-- The states of the controller as configured by `SetupWithManager`, with
`callers` goroutines calling `RunReconcile`. -/
def Reachable {σ : Type} (inner : Inner σ) (callers : Nat) (store : σ) (s : State σ) : Prop :=
  ∃ es, run inner (initial ctrlOptions callers store) es = some s

/-- The program counters at which the inner call of a worker is in flight. -/
def WorkerPc.inFlight : WorkerPc → Bool
  | .running _ _ => true
  | _ => false

/-- The requests worker `w` called the wrapper with, in order. -/
def State.reconcileCallsOf {σ : Type} (s : State σ) (w : Nat) : List Request :=
  (s.reconcileCalls.filter (fun x => x.1 == w)).map (fun x => x.2)

/-- The requests worker `w` invoked the inner reconciler with, in order. -/
def State.innerCallsOf {σ : Type} (s : State σ) (w : Nat) : List Request :=
  (s.innerCalls.filter (fun x => x.1 == w)).map (fun x => x.2)

/-- The requests and outcomes of the inner calls returned to worker `w`, in order. -/
def State.innerReturnsOf {σ : Type} (s : State σ) (w : Nat) : List (Request × Outcome) :=
  (s.innerReturns.filter (fun x => x.1 == w)).map (fun x => x.2)

/-- The requests and returned pairs of the wrapper calls returned on worker `w`, in order. -/
def State.reconcileReturnsOf {σ : Type} (s : State σ) (w : Nat) : List (Request × Outcome) :=
  (s.reconcileReturns.filter (fun x => x.1 == w)).map (fun x => x.2)

/-- Number of inner calls started. -/
def State.started {σ : Type} (s : State σ) : Nat := s.innerCalls.length

/-- Number of inner calls returned. -/
def State.finished {σ : Type} (s : State σ) : Nat := s.innerReturns.length

/-- The steps of one reconciliation pass driven through `RunReconcile`:
caller `c` calls `RunReconcile` and signals worker `w`, which waits in
`Reconcile`; the worker runs the inner reconciler and signals back; both
calls return. -/
def passEvents (c w : Nat) : List Event :=
  [.runReconcile c, .start c w, .invoke w, .innerReturn w, .done w c,
   .reconcileReturn w, .runReconcileReturn c]

/-! ## The reconcile engine -/

/-- Spec 3: `spec.reconcileStrategy` of the managed object. -/
inductive ReconcileStrategy where
  | Strict
  | None
  deriving DecidableEq, Repr

/-- Spec 3: the state of a component in the status of the managed object. -/
inductive ComponentState where
  | Pending
  | Ready
  | Error
  deriving DecidableEq, Repr

/-- Spec 3 (ManagedResource): the ManagedOCS object. -/
structure ManagedOCS where
  Name : String
  Namespace : String
  SpecReconcileStrategy : ReconcileStrategy
  StatusReconcileStrategy : ReconcileStrategy
  StorageClusterState : ComponentState
  AwaitingConfiguration : Bool
  deriving DecidableEq, Repr

/-- Spec 3 (ConfigSecret): a secret with its key/value data. -/
structure Secret where
  Name : String
  Namespace : String
  Data : List (String × String)
  deriving DecidableEq, Repr

/-- The spec of a StorageCluster, as the fields the engine derives. -/
structure StorageClusterSpec where
  Fields : List (String × String)
  deriving DecidableEq, Repr

/-- Spec 3 (DependentResource): the StorageCluster with its owner, spec and phase. -/
structure StorageCluster where
  Name : String
  Namespace : String
  Owner : String
  Spec : StorageClusterSpec
  Phase : String
  deriving DecidableEq, Repr

/-- The object store, as far as the engine reads and writes it. -/
structure Cluster where
  ManagedOCSs : List ManagedOCS
  Secrets : List Secret
  StorageClusters : List StorageCluster
  deriving DecidableEq, Repr

/-- Spec 6: `get` of a ManagedOCS by name and namespace. -/
def Cluster.getManagedOCS (c : Cluster) (name ns : String) : Option ManagedOCS :=
  c.ManagedOCSs.find? (fun m => decide (m.Name = name) && decide (m.Namespace = ns))

/-- Spec 6: `get` of a Secret by name and namespace. -/
def Cluster.getSecret (c : Cluster) (name ns : String) : Option Secret :=
  c.Secrets.find? (fun x => decide (x.Name = name) && decide (x.Namespace = ns))

/-- Spec 6: `get` of a StorageCluster by name and namespace. -/
def Cluster.getStorageCluster (c : Cluster) (name ns : String) : Option StorageCluster :=
  c.StorageClusters.find? (fun x => decide (x.Name = name) && decide (x.Namespace = ns))

/-- Spec 6: `create` of a StorageCluster. -/
def Cluster.createStorageCluster (c : Cluster) (sc : StorageCluster) : Cluster :=
  { c with StorageClusters := c.StorageClusters ++ [sc] }

/-- Spec 6: `update` of a StorageCluster, found by name and namespace. -/
def Cluster.updateStorageCluster (c : Cluster) (sc : StorageCluster) : Cluster :=
  { c with StorageClusters := c.StorageClusters.map (fun x =>
      if x.Name = sc.Name ∧ x.Namespace = sc.Namespace then sc else x) }

/-- Spec 6: `updateStatus` of a ManagedOCS, found by name and namespace. -/
def Cluster.updateManagedOCSStatus (c : Cluster) (m : ManagedOCS) : Cluster :=
  { c with ManagedOCSs := c.ManagedOCSs.map (fun x =>
      if x.Name = m.Name ∧ x.Namespace = m.Namespace then
        { x with StatusReconcileStrategy := m.StatusReconcileStrategy,
                 StorageClusterState := m.StorageClusterState,
                 AwaitingConfiguration := m.AwaitingConfiguration }
      else x) }

/-- Modelled from the spec: the size parsing of the reconcile engine, which
is in `managedocs_controller.go`, not among the sources. Spec 4.3 (numeric
semantics): strict base-10 integer parsing; any non-digit content, the empty
string and a value that is not positive are treated as absent. -/
def parseSize (size : String) : Option Nat :=
  if size.data ≠ [] ∧ size.data.all Char.isDigit = true then
    let n := size.data.foldl (fun acc ch => 10 * acc + (ch.toNat - 48)) 0
    if 0 < n then some n else none
  else
    none

/-- What the engine is configured with beyond the secret name (spec 6,
configuration inputs): the well-known name of the StorageCluster, the desired
spec as a function of the spec of the managed object and the parsed size, and
the mapping of the phase of the StorageCluster to a component state. -/
structure EngineParams where
  storageClusterName : String
  desiredSpec : ReconcileStrategy → Nat → StorageClusterSpec
  phaseState : String → ComponentState

/-- The successful outcome of a pass. -/
def success : Outcome := { result := { Requeue := false, RequeueAfter := 0 }, err := none }

/-- The size the engine reads for a namespace: the value under the key `size` of
the add-on parameters secret of that namespace, parsed (spec 4.3, step 2). -/
def ManagedOCSReconciler.readSize (r : ManagedOCSReconciler) (c : Cluster) (ns : String) :
    Option Nat :=
  ((c.getSecret r.AddonParamSecretName ns).bind (fun x => x.Data.lookup "size")).bind parseSize

/-- Modelled from the spec: `ManagedOCSReconciler.Reconcile` is in
`managedocs_controller.go`, not among the sources. Spec 4.3, one pass for a
work item naming `M`, on a store whose operations succeed:
1. load `M`; not found is a success without effect;
2. load the secret by its well-known name in the namespace of `M`; when it is
   not found, or `size` is missing, fails to parse or is not positive, set the
   awaiting-configuration condition and return without creating or modifying
   the StorageCluster;
3. compute the desired spec from the spec of `M` and the parsed size;
4. load the StorageCluster by its well-known name; absent: create it owned by
   `M` with the desired spec; present and strategy Strict: overwrite a
   diverging spec with the desired one; present and strategy None: no change;
5. mirror the phase of the StorageCluster into the component state of `M`;
6. persist the status of `M`. -/
def ManagedOCSReconciler.Reconcile (r : ManagedOCSReconciler) (p : EngineParams)
    (req : Request) (c : Cluster) : Outcome × Cluster :=
  match c.getManagedOCS req.NamespacedName.Name req.NamespacedName.Namespace with
  | none => (success, c)
  | some m =>
    match r.readSize c m.Namespace with
    | none => (success, c.updateManagedOCSStatus { m with AwaitingConfiguration := true })
    | some size =>
      let desired := p.desiredSpec m.SpecReconcileStrategy size
      let c1 :=
        match c.getStorageCluster p.storageClusterName m.Namespace with
        | none =>
          c.createStorageCluster
            { Name := p.storageClusterName, Namespace := m.Namespace, Owner := m.Name,
              Spec := desired, Phase := "" }
        | some sc =>
          if m.StatusReconcileStrategy = ReconcileStrategy.Strict ∨
              m.SpecReconcileStrategy = ReconcileStrategy.Strict then
            if sc.Spec = desired then c else c.updateStorageCluster { sc with Spec := desired }
          else c
      let state :=
        match c1.getStorageCluster p.storageClusterName m.Namespace with
        | none => ComponentState.Pending
        | some sc => p.phaseState sc.Phase
      (success, c1.updateManagedOCSStatus { m with StorageClusterState := state })

/-! ## Invariants of the controller with a single worker -/

/-- No caller waits for a done signal. -/
@[reducible]
def NoneWaiting (cs : List CallerPc) : Prop :=
  ∀ (i t : Nat), cs[i]? ≠ some (CallerPc.recvDone t)

/-- Exactly one caller waits for a done signal, with ticket `t`. -/
@[reducible]
def OnlyWaiting (cs : List CallerPc) (t : Nat) : Prop :=
  ∃ i : Nat, cs[i]? = some (CallerPc.recvDone t) ∧
    ∀ (j u : Nat), cs[j]? = some (CallerPc.recvDone u) → j = i

/-- What the program counter of the single worker says about the callers and the counters. -/
def workerInv {σ : Type} (s : State σ) : WorkerPc → Prop
  | .idle => NoneWaiting s.callers ∧ s.started = s.accepted ∧ s.finished = s.accepted
  | .waitStart _ => NoneWaiting s.callers ∧ s.started = s.accepted ∧ s.finished = s.accepted
  | .ret _ _ => NoneWaiting s.callers ∧ s.started = s.accepted ∧ s.finished = s.accepted
  | .callInner _ t =>
    OnlyWaiting s.callers t ∧ s.accepted = t + 1 ∧ s.started = t ∧ s.finished = t
  | .running _ t =>
    OnlyWaiting s.callers t ∧ s.accepted = t + 1 ∧ s.started = t + 1 ∧ s.finished = t
  | .sendDone _ _ t =>
    OnlyWaiting s.callers t ∧ s.accepted = t + 1 ∧ s.started = t + 1 ∧ s.finished = t + 1

/-- The invariant of the controller with a single worker. -/
def SingleWorkerInv {σ : Type} (s : State σ) : Prop :=
  ∃ pc, s.workers = [pc] ∧ workerInv s pc ∧ ∀ p ∈ s.released, p.1 = p.2

/-- The invariant of a single goroutine calling `RunReconcile`: inside the
call, once its start signal is accepted, no other start signal is accepted. -/
def SingleCallerInv {σ : Type} (s : State σ) : Prop :=
  ∃ pc, s.callers = [pc] ∧
    ∀ t : Nat, pc = CallerPc.recvDone t ∨ pc = CallerPc.finishing t → s.accepted = t + 1

/-! ## Invariant of the wrapper on each worker -/

/-- What the program counter of worker `w` says about the calls and returns
of the wrapper and of the inner reconciler on that worker. -/
def wrapperInv {σ : Type} (s : State σ) (w : Nat) : Option WorkerPc → Prop
  | none =>
    s.reconcileCallsOf w = [] ∧ s.innerCallsOf w = [] ∧ s.innerReturnsOf w = []
      ∧ s.reconcileReturnsOf w = []
  | some .idle =>
    s.reconcileCallsOf w = (s.reconcileReturnsOf w).map Prod.fst
      ∧ s.innerCallsOf w = (s.reconcileReturnsOf w).map Prod.fst
      ∧ s.innerReturnsOf w = s.reconcileReturnsOf w
  | some (.waitStart req) =>
    s.reconcileCallsOf w = (s.reconcileReturnsOf w).map Prod.fst ++ [req]
      ∧ s.innerCallsOf w = (s.reconcileReturnsOf w).map Prod.fst
      ∧ s.innerReturnsOf w = s.reconcileReturnsOf w
  | some (.callInner req _) =>
    s.reconcileCallsOf w = (s.reconcileReturnsOf w).map Prod.fst ++ [req]
      ∧ s.innerCallsOf w = (s.reconcileReturnsOf w).map Prod.fst
      ∧ s.innerReturnsOf w = s.reconcileReturnsOf w
  | some (.running req _) =>
    s.reconcileCallsOf w = (s.reconcileReturnsOf w).map Prod.fst ++ [req]
      ∧ s.innerCallsOf w = (s.reconcileReturnsOf w).map Prod.fst ++ [req]
      ∧ s.innerReturnsOf w = s.reconcileReturnsOf w
  | some (.sendDone req out _) =>
    s.reconcileCallsOf w = (s.reconcileReturnsOf w).map Prod.fst ++ [req]
      ∧ s.innerCallsOf w = (s.reconcileReturnsOf w).map Prod.fst ++ [req]
      ∧ s.innerReturnsOf w = s.reconcileReturnsOf w ++ [(req, out)]
  | some (.ret req out) =>
    s.reconcileCallsOf w = (s.reconcileReturnsOf w).map Prod.fst ++ [req]
      ∧ s.innerCallsOf w = (s.reconcileReturnsOf w).map Prod.fst ++ [req]
      ∧ s.innerReturnsOf w = s.reconcileReturnsOf w ++ [(req, out)]

/-- The invariant of the wrapper, worker by worker. -/
def WrapperInv {σ : Type} (s : State σ) : Prop :=
  ∀ w : Nat, wrapperInv s w s.workers[w]?

/-! ## Sample inputs -/

/-- Metadata of a sample object. -/
def sampleMeta (name ns : String) (generation : Int) : ObjectMeta :=
  { Name := name, Namespace := ns, Generation := generation, ResourceVersion := "1",
    Labels := [], OwnerReferences := [] }

/-- The reconciler as the test suite configures it. -/
def sampleReconciler : ManagedOCSReconciler := { AddonParamSecretName := "test-addon-secret" }

/-- The request the secret watch enqueues in the primary namespace. -/
def sampleRequest : Request :=
  { NamespacedName := { Name := "managedocs", Namespace := "primary" } }

/-- An inner reconciler that succeeds and leaves the store alone. -/
def noopInner : Inner Unit := fun _ store => (success, store)

/-- One worker after a pass driven by the only caller, before `RunReconcile` returns. -/
def sampleFinishing : State Unit :=
  { workers := [.ret sampleRequest success], callers := [.finishing 0], store := (),
    accepted := 1, reconcileCalls := [(0, sampleRequest)], innerCalls := [(0, sampleRequest)],
    innerReturns := [(0, sampleRequest, success)], released := [(0, 0)],
    reconcileReturns := [], runReconcileReturns := 0 }

/-- One worker about to send the done signal, the first of two callers waiting for it. -/
def sampleSending : State Unit :=
  { workers := [.sendDone sampleRequest success 0], callers := [.recvDone 0, .sendStart],
    store := (), accepted := 1, reconcileCalls := [(0, sampleRequest)],
    innerCalls := [(0, sampleRequest)], innerReturns := [(0, sampleRequest, success)],
    released := [], reconcileReturns := [], runReconcileReturns := 0 }

/-- One worker and one caller after a complete pass. -/
def sampleReturned : State Unit :=
  { workers := [.idle], callers := [.idle], store := (),
    accepted := 1, reconcileCalls := [(0, sampleRequest)], innerCalls := [(0, sampleRequest)],
    innerReturns := [(0, sampleRequest, success)], released := [(0, 0)],
    reconcileReturns := [(0, sampleRequest, success)], runReconcileReturns := 1 }

/-- A worker waiting in `Reconcile`, a second idle worker and an idle caller. -/
def sampleWaiting : State Unit :=
  { workers := [.waitStart sampleRequest, .idle], callers := [.idle], store := (),
    accepted := 0, reconcileCalls := [(0, sampleRequest)], innerCalls := [],
    innerReturns := [], released := [], reconcileReturns := [], runReconcileReturns := 0 }

/-- Sample engine parameters. -/
def sampleParams : EngineParams :=
  { storageClusterName := "ocs-storagecluster",
    desiredSpec := fun _ size => { Fields := List.replicate size ("deviceSet", "1") },
    phaseState := fun phase =>
      if phase = "Ready" then .Ready else if phase = "Error" then .Error else .Pending }

/-- The ManagedOCS object of the test suite. -/
def sampleManagedOCS : ManagedOCS :=
  { Name := "managedocs", Namespace := "primary", SpecReconcileStrategy := .Strict,
    StatusReconcileStrategy := .Strict, StorageClusterState := .Pending,
    AwaitingConfiguration := false }

/-- A store with the ManagedOCS object, the given secrets and no StorageCluster. -/
def sampleCluster (secrets : List Secret) : Cluster :=
  { ManagedOCSs := [sampleManagedOCS], Secrets := secrets, StorageClusters := [] }

/-- The add-on parameters secret with the given size. -/
def sampleSecret (size : String) : Secret :=
  { Name := "test-addon-secret", Namespace := "primary", Data := [("size", size)] }

/-- A worker waiting in `Reconcile` for the sample request and an idle caller, on a store. -/
def sampleEngineState (store : Cluster) : State Cluster :=
  { workers := [.waitStart sampleRequest], callers := [.idle], store := store,
    accepted := 0, reconcileCalls := [(0, sampleRequest)], innerCalls := [],
    innerReturns := [], released := [], reconcileReturns := [], runReconcileReturns := 0 }

/-- The only worker waiting in `Reconcile` after the work item arrived, the caller idle. -/
def sampleBlocked : State Unit :=
  { workers := [.waitStart sampleRequest], callers := [.idle], store := (), accepted := 0,
    reconcileCalls := [(0, sampleRequest)], innerCalls := [], innerReturns := [],
    released := [], reconcileReturns := [], runReconcileReturns := 0 }

/-! ## Counting invariant and the view of a caller -/

/-- The program counter at which a received start signal is not yet followed by the inner call. -/
def WorkerPc.atCallInner : WorkerPc → Bool
  | .callInner _ _ => true
  | _ => false

/-- The program counter at which a returned inner call is not yet followed by the done signal. -/
def WorkerPc.atSendDone : WorkerPc → Bool
  | .sendDone _ _ _ => true
  | _ => false

/-- The counting invariant of the wrapper, for any number of workers: every
received start signal is followed by one inner call, but for the workers
about to make it; every returned inner call is followed by one done signal,
but for the workers about to send it. -/
def CountInv {σ : Type} (s : State σ) : Prop :=
  s.accepted = s.started + s.workers.countP WorkerPc.atCallInner
    ∧ s.finished = s.released.length + s.workers.countP WorkerPc.atSendDone

/-- What a call of `RunReconcile` leaves with goroutine `c`. The function has
no result (`func (r *SyncReconciler) RunReconcile()`, line 36) and the done
signal it receives is the empty struct (line 40), so the goroutine has its
program counter and the number of calls that returned, nothing else. -/
def State.callerView {σ : Type} (s : State σ) (c : Nat) : Option CallerPc × Nat :=
  (s.callers[c]?, s.runReconcileReturns)

/-- The outcome of a pass that failed. -/
def failure : Outcome :=
  { result := { Requeue := false, RequeueAfter := 0 }, err := some "reconcile failed" }

/-- An inner reconciler that returns an error and leaves the store alone. -/
def failingInner : Inner Unit := fun _ store => (failure, store)

/-! ## The state of the controller test -/

/-- The ManagedOCS object the controller test creates (`ManagedOCSName` in `TestNamespace`). -/
def testManagedOCS : ManagedOCS :=
  { Name := "test-managedocs", Namespace := "default", SpecReconcileStrategy := .Strict,
    StatusReconcileStrategy := .Strict, StorageClusterState := .Pending,
    AwaitingConfiguration := false }

/-- The add-on parameters secret the controller test creates with the size `1`. -/
def testSecret : Secret :=
  { Name := "test-addon-secret", Namespace := "default", Data := [("size", "1")] }

/-- The store of the controller test before the pass that is to create the
StorageCluster: the ManagedOCS object, the secret with the size `1`, no
StorageCluster. -/
def testCluster : Cluster :=
  { ManagedOCSs := [testManagedOCS], Secrets := [testSecret], StorageClusters := [] }

/-- The notification of the creation of that secret, as the secret watch gets it. -/
def testSecretObject : MapObject :=
  { Meta := sampleMeta "test-addon-secret" "default" 1, Object := [("size", "1")] }

/-- The request the secret watch enqueues for that notification. -/
def testRequest : Request :=
  { NamespacedName := { Name := "managedocs", Namespace := "default" } }

/-- The only worker waiting in `Reconcile` for that request, the caller idle, on that store. -/
def testEngineState : State Cluster :=
  { workers := [.waitStart testRequest], callers := [.idle], store := testCluster,
    accepted := 0, reconcileCalls := [(0, testRequest)], innerCalls := [],
    innerReturns := [], released := [], reconcileReturns := [], runReconcileReturns := 0 }

/-! # Proofs -/

/-! ## The single worker -/

/-- An index into a one-element list is 0 and finds that element. -/
theorem singleton_getElem? {α : Type} {a x : α} {w : Nat} (h : [a][w]? = some x) :
    w = 0 ∧ x = a := by
  cases w with
  | zero => simp at h; exact ⟨rfl, h.symm⟩
  | succ n => simp at h

/-- Setting a caller to a program counter other than the wait for the done signal keeps
`NoneWaiting`. -/
theorem NoneWaiting.set {cs : List CallerPc} (h : NoneWaiting cs) (c : Nat) (pc : CallerPc)
    (hpc : ∀ t, pc ≠ .recvDone t) : NoneWaiting (cs.set c pc) := by
  intro i t hi
  rw [List.getElem?_set] at hi
  split at hi
  · split at hi
    · exact hpc t (Option.some.inj hi)
    · cases hi
  · exact h i t hi

/-- When no caller waits, the caller whose start signal is accepted is the only one that
waits. -/
theorem NoneWaiting.set_recvDone {cs : List CallerPc} (h : NoneWaiting cs) {c : Nat}
    {q : CallerPc} (hc : cs[c]? = some q) (t : Nat) : OnlyWaiting (cs.set c (.recvDone t)) t := by
  have hlt : c < cs.length := (List.getElem?_eq_some.1 hc).1
  refine ⟨c, List.getElem?_set_self hlt, ?_⟩
  intro j u hj
  by_contra hne
  rw [List.getElem?_set_ne (Ne.symm hne)] at hj
  exact h j u hj

/-- A step of a caller that does not wait for the done signal keeps the only waiting
caller. -/
theorem OnlyWaiting.set_other {cs : List CallerPc} {t : Nat} (h : OnlyWaiting cs t) {c : Nat}
    {q : CallerPc} (hc : cs[c]? = some q) (hq : ∀ u, q ≠ .recvDone u) (pc : CallerPc)
    (hpc : ∀ u, pc ≠ .recvDone u) : OnlyWaiting (cs.set c pc) t := by
  obtain ⟨i, hi, huniq⟩ := h
  have hci : c ≠ i := by
    intro e
    subst e
    rw [hc] at hi
    exact hq t (Option.some.inj hi)
  refine ⟨i, by rw [List.getElem?_set_ne hci]; exact hi, ?_⟩
  intro j u hj
  rw [List.getElem?_set] at hj
  split at hj
  · split at hj
    · exact absurd (Option.some.inj hj) (hpc u)
    · cases hj
  · exact huniq j u hj

/-- The caller that receives the done signal is the only waiting one: it holds the
ticket, and no caller waits afterwards. -/
theorem OnlyWaiting.release {cs : List CallerPc} {t : Nat} (h : OnlyWaiting cs t) {c u : Nat}
    (hc : cs[c]? = some (.recvDone u)) (pc : CallerPc) (hpc : ∀ v, pc ≠ .recvDone v) :
    u = t ∧ NoneWaiting (cs.set c pc) := by
  obtain ⟨i, hi, huniq⟩ := h
  have hci : c = i := huniq c u hc
  subst hci
  rw [hc] at hi
  have hut : u = t := by injection (Option.some.inj hi)
  refine ⟨hut, ?_⟩
  intro j v hj
  rw [List.getElem?_set] at hj
  split at hj
  · split at hj
    · exact hpc v (Option.some.inj hj)
    · cases hj
  · rename_i hne
    exact hne (huniq j v hj).symm

/-- Every step keeps the invariant of the single worker. -/
theorem singleWorkerInv_step {σ : Type} (inner : Inner σ) {s s1 : State σ} {e : Event}
    (hinv : SingleWorkerInv s) (h : step inner s e = some s1) : SingleWorkerInv s1 := by
  obtain ⟨pc, hw, hpc, hrel⟩ := hinv
  cases e with
  | dequeue w req =>
    simp only [step] at h
    split at h
    · rename_i hidle
      rw [hw] at hidle
      obtain ⟨rfl, rfl⟩ := singleton_getElem? hidle
      cases h
      exact ⟨.waitStart req, by simp [hw], hpc, hrel⟩
    · cases h
  | runReconcile c =>
    simp only [step] at h
    split at h
    · rename_i hidle
      cases h
      refine ⟨pc, hw, ?_, hrel⟩
      cases pc <;> simp only [workerInv] at hpc ⊢
      all_goals first
        | exact ⟨hpc.1.set c _ (by intro t; simp), hpc.2⟩
        | exact ⟨hpc.1.set_other hidle (by intro t; simp) _ (by intro t; simp), hpc.2⟩
    · cases h
  | start c w =>
    simp only [step] at h
    split at h
    · rename_i req hc hwk
      rw [hw] at hwk
      obtain ⟨rfl, rfl⟩ := singleton_getElem? hwk
      cases h
      simp only [workerInv] at hpc
      exact ⟨.callInner req s.accepted, by simp [hw],
        ⟨hpc.1.set_recvDone hc _, rfl, hpc.2.1, hpc.2.2⟩, hrel⟩
    · cases h
  | invoke w =>
    simp only [step] at h
    split at h
    · rename_i req t hwk
      rw [hw] at hwk
      obtain ⟨rfl, rfl⟩ := singleton_getElem? hwk
      cases h
      simp only [workerInv] at hpc
      refine ⟨.running req t, by simp [hw], ?_, hrel⟩
      simp only [workerInv, State.started, State.finished] at hpc ⊢
      refine ⟨hpc.1, hpc.2.1, ?_, hpc.2.2.2⟩
      simp [hpc.2.2.1]
    · cases h
  | innerReturn w =>
    simp only [step] at h
    split at h
    · rename_i req t hwk
      rw [hw] at hwk
      obtain ⟨rfl, rfl⟩ := singleton_getElem? hwk
      cases h
      refine ⟨.sendDone req (inner req s.store).1 t, by simp [hw], ?_, hrel⟩
      simp only [workerInv, State.started, State.finished] at hpc ⊢
      refine ⟨hpc.1, hpc.2.1, hpc.2.2.1, ?_⟩
      simp [hpc.2.2.2]
    · cases h
  | done w c =>
    simp only [step] at h
    split at h
    · rename_i req out t u hwk hc
      rw [hw] at hwk
      obtain ⟨rfl, rfl⟩ := singleton_getElem? hwk
      cases h
      simp only [workerInv, State.started, State.finished] at hpc
      obtain ⟨hut, hnone⟩ := hpc.1.release hc (.finishing u) (by intro v; simp)
      refine ⟨.ret req out, by simp [hw], ?_, ?_⟩
      · simp only [workerInv, State.started, State.finished]
        exact ⟨hnone, by omega, by omega⟩
      · intro p hp
        simp only [List.mem_append, List.mem_singleton] at hp
        rcases hp with hp | hp
        · exact hrel p hp
        · subst hp; exact hut.symm
    · cases h
  | reconcileReturn w =>
    simp only [step] at h
    split at h
    · rename_i req out hwk
      rw [hw] at hwk
      obtain ⟨rfl, rfl⟩ := singleton_getElem? hwk
      cases h
      exact ⟨.idle, by simp [hw], hpc, hrel⟩
    · cases h
  | runReconcileReturn c =>
    simp only [step] at h
    split at h
    · rename_i t hfin
      cases h
      refine ⟨pc, hw, ?_, hrel⟩
      cases pc <;> simp only [workerInv] at hpc ⊢
      all_goals first
        | exact ⟨hpc.1.set c _ (by intro t; simp), hpc.2⟩
        | exact ⟨hpc.1.set_other hfin (by intro t; simp) _ (by intro t; simp), hpc.2⟩
    · cases h

/-- Every run keeps the invariant of the single worker. -/
theorem singleWorkerInv_run {σ : Type} (inner : Inner σ) (es : List Event) :
    ∀ {s s1 : State σ}, SingleWorkerInv s → run inner s es = some s1 → SingleWorkerInv s1 := by
  induction es with
  | nil =>
    intro s s1 hinv h
    simp only [run] at h
    cases h
    exact hinv
  | cons e es ih =>
    intro s s1 hinv h
    simp only [run] at h
    cases hstep : step inner s e with
    | none => rw [hstep] at h; cases h
    | some s2 =>
      rw [hstep] at h
      exact ih (singleWorkerInv_step inner hinv hstep) h

/-- The initial state of the controller as configured has the invariant of the single
worker. -/
theorem singleWorkerInv_initial {σ : Type} (callers : Nat) (store : σ) :
    SingleWorkerInv (initial ctrlOptions callers store) := by
  refine ⟨.idle, rfl, ⟨?_, rfl, rfl⟩, ?_⟩
  swap
  · intro p hp
    simp [initial] at hp
  intro i t hi
  simp only [initial] at hi
  rw [List.getElem?_replicate] at hi
  split at hi <;> cases hi

/-- Every reachable state has the invariant of the single worker. -/
theorem reachable_singleWorkerInv {σ : Type} {inner : Inner σ} {callers : Nat} {store : σ}
    {s : State σ} (h : Reachable inner callers store s) : SingleWorkerInv s := by
  obtain ⟨es, hes⟩ := h
  exact singleWorkerInv_run inner es (singleWorkerInv_initial callers store) hes

/-- Every step keeps the invariant of the single caller. -/
theorem singleCallerInv_step {σ : Type} (inner : Inner σ) {s s1 : State σ} {e : Event}
    (hinv : SingleCallerInv s) (h : step inner s e = some s1) : SingleCallerInv s1 := by
  obtain ⟨pc, hc, hpc⟩ := hinv
  cases e with
  | dequeue w req =>
    simp only [step] at h
    split at h
    · cases h; exact ⟨pc, hc, hpc⟩
    · cases h
  | runReconcile c =>
    simp only [step] at h
    split at h
    · rename_i hidle
      rw [hc] at hidle
      obtain ⟨rfl, rfl⟩ := singleton_getElem? hidle
      cases h
      exact ⟨.sendStart, by simp [hc], by intro t ht; rcases ht with ht | ht <;> cases ht⟩
    · cases h
  | start c w =>
    simp only [step] at h
    split at h
    · rename_i req hcl hwk
      rw [hc] at hcl
      obtain ⟨rfl, rfl⟩ := singleton_getElem? hcl
      cases h
      refine ⟨.recvDone s.accepted, by simp [hc], ?_⟩
      intro t ht
      rcases ht with ht | ht
      · injection ht with ht; simp [ht]
      · cases ht
    · cases h
  | invoke w =>
    simp only [step] at h
    split at h
    · cases h; exact ⟨pc, hc, hpc⟩
    · cases h
  | innerReturn w =>
    simp only [step] at h
    split at h
    · cases h; exact ⟨pc, hc, hpc⟩
    · cases h
  | done w c =>
    simp only [step] at h
    split at h
    · rename_i req out t u hwk hcl
      rw [hc] at hcl
      obtain ⟨rfl, rfl⟩ := singleton_getElem? hcl
      cases h
      refine ⟨.finishing u, by simp [hc], ?_⟩
      intro v hv
      rcases hv with hv | hv
      · cases hv
      · injection hv with hv
        subst hv
        exact hpc u (Or.inl rfl)
    · cases h
  | reconcileReturn w =>
    simp only [step] at h
    split at h
    · cases h; exact ⟨pc, hc, hpc⟩
    · cases h
  | runReconcileReturn c =>
    simp only [step] at h
    split at h
    · rename_i t hfin
      rw [hc] at hfin
      obtain ⟨rfl, rfl⟩ := singleton_getElem? hfin
      cases h
      exact ⟨.idle, by simp [hc], by intro t ht; rcases ht with ht | ht <;> cases ht⟩
    · cases h

/-- Every run keeps the invariant of the single caller. -/
theorem singleCallerInv_run {σ : Type} (inner : Inner σ) (es : List Event) :
    ∀ {s s1 : State σ}, SingleCallerInv s → run inner s es = some s1 → SingleCallerInv s1 := by
  induction es with
  | nil =>
    intro s s1 hinv h
    simp only [run] at h
    cases h
    exact hinv
  | cons e es ih =>
    intro s s1 hinv h
    simp only [run] at h
    cases hstep : step inner s e with
    | none => rw [hstep] at h; cases h
    | some s2 =>
      rw [hstep] at h
      exact ih (singleCallerInv_step inner hinv hstep) h

/-- Every state reachable with one caller has the invariant of the single caller. -/
theorem reachable_singleCallerInv {σ : Type} {inner : Inner σ} {store : σ}
    {s : State σ} (h : Reachable inner 1 store s) : SingleCallerInv s := by
  obtain ⟨es, hes⟩ := h
  refine singleCallerInv_run inner es ?_ hes
  exact ⟨.idle, rfl, by intro t ht; rcases ht with ht | ht <;> cases ht⟩

/-- C3: with one controller worker and one goroutine calling `RunReconcile`,
in every reachable state: (a) when the start signal of the caller is accepted,
no inner pass is in flight, and as many inner calls have started and returned
as signals were accepted before, which is the ticket the caller takes; (b)
while the caller is inside `RunReconcile` with ticket `t`, at most one inner
call has started since the acceptance; (c) `RunReconcile` returns only from a
state in which exactly one inner call has started and has returned since the
acceptance. -/
theorem RunReconcile_exactly_one_pass {σ : Type} (inner : Inner σ) (store : σ) (s : State σ)
    (h : Reachable inner 1 store s) :
    (∀ c w s1, step inner s (.start c w) = some s1 →
        s.started = s.accepted ∧ s.finished = s.accepted ∧
          s1.callers = [CallerPc.recvDone s.accepted])
      ∧ (∀ t, s.callers = [CallerPc.recvDone t] ∨ s.callers = [CallerPc.finishing t] →
          t ≤ s.finished ∧ s.finished ≤ s.started ∧ s.started ≤ t + 1)
      ∧ (∀ c s1, step inner s (.runReconcileReturn c) = some s1 →
          ∃ t, s.callers = [CallerPc.finishing t] ∧ s.started = t + 1 ∧ s.finished = t + 1) := by
  obtain ⟨wpc, hw, hwpc, -⟩ := reachable_singleWorkerInv h
  obtain ⟨cpc, hc, hcpc⟩ := reachable_singleCallerInv h
  have key : ∀ t, cpc = CallerPc.finishing t → s.started = t + 1 ∧ s.finished = t + 1 := by
    intro t ht
    have hacc := hcpc t (Or.inr ht)
    subst ht
    cases wpc <;> simp only [workerInv] at hwpc
    case idle => omega
    case waitStart => omega
    case ret => omega
    all_goals
      obtain ⟨⟨i, hi, -⟩, -⟩ := hwpc
      rw [hc] at hi
      obtain ⟨-, hi⟩ := singleton_getElem? hi
      cases hi
  have key2 : ∀ t, cpc = CallerPc.recvDone t →
      t ≤ s.finished ∧ s.finished ≤ s.started ∧ s.started ≤ t + 1 := by
    intro t ht
    have hacc := hcpc t (Or.inl ht)
    subst ht
    cases wpc <;> simp only [workerInv] at hwpc
    case idle => exact absurd (by simp [hc]) (hwpc.1 0 t)
    case waitStart => exact absurd (by simp [hc]) (hwpc.1 0 t)
    case ret => exact absurd (by simp [hc]) (hwpc.1 0 t)
    all_goals omega
  refine ⟨?_, ?_, ?_⟩
  · intro c w s1 hs
    simp only [step] at hs
    split at hs
    · rename_i req hcl hwk
      rw [hw] at hwk
      obtain ⟨rfl, rfl⟩ := singleton_getElem? hwk
      rw [hc] at hcl
      obtain ⟨rfl, rfl⟩ := singleton_getElem? hcl
      cases hs
      simp only [workerInv] at hwpc
      exact ⟨hwpc.2.1, hwpc.2.2, by simp [hc]⟩
    · cases hs
  · intro t ht
    rw [hc] at ht
    rcases ht with ht | ht
    · exact key2 t (by simpa using ht)
    · obtain ⟨h1, h2⟩ := key t (by simpa using ht)
      omega
  · intro c s1 hs
    simp only [step] at hs
    split at hs
    · rename_i t hfin
      rw [hc] at hfin
      obtain ⟨rfl, rfl⟩ := singleton_getElem? hfin
      exact ⟨t, hc, key t rfl⟩
    · cases hs

/-- C4: for any number of goroutines calling `RunReconcile` against the
controller as configured by `SetupWithManager` (one worker), in every
reachable state at most one inner call is in flight, and every done signal is
received by the caller whose start signal unblocked the pass that sends it:
the tickets of the released pairs agree, and so do the tickets of every pair
of a sender and a receiver that can meet on `doneReconcile`. -/
theorem single_worker_serializes {σ : Type} (inner : Inner σ) (callers : Nat) (store : σ)
    (s : State σ) (h : Reachable inner callers store s) :
    (s.workers.filter WorkerPc.inFlight).length ≤ 1
      ∧ s.finished ≤ s.started ∧ s.started ≤ s.finished + 1
      ∧ (∀ p ∈ s.released, p.1 = p.2)
      ∧ (∀ (w c : Nat) req out t u, s.workers[w]? = some (WorkerPc.sendDone req out t) →
          s.callers[c]? = some (CallerPc.recvDone u) → t = u) := by
  obtain ⟨wpc, hw, hwpc, hrel⟩ := reachable_singleWorkerInv h
  refine ⟨?_, ?_, ?_, hrel, ?_⟩
  · rw [hw]
    exact (List.length_filter_le _ _).trans (by simp)
  · cases wpc <;> simp only [workerInv] at hwpc <;> omega
  · cases wpc <;> simp only [workerInv] at hwpc <;> omega
  · intro w c req out t u hwk hcl
    rw [hw] at hwk
    obtain ⟨rfl, rfl⟩ := singleton_getElem? hwk
    simp only [workerInv] at hwpc
    obtain ⟨⟨i, hi, huniq⟩, -⟩ := hwpc
    have := huniq c u hcl
    subst this
    rw [hcl] at hi
    injection (Option.some.inj hi) with e
    exact e.symm

/-! ## The wrapper and the inner reconciler -/

/-- The invariant of a worker depends on the state through the four histories of that
worker only. -/
theorem wrapperInv_congr {σ : Type} (s : State σ) {s1 : State σ} {w : Nat} {pc : Option WorkerPc}
    (h1 : s1.reconcileCallsOf w = s.reconcileCallsOf w)
    (h2 : s1.innerCallsOf w = s.innerCallsOf w)
    (h3 : s1.innerReturnsOf w = s.innerReturnsOf w)
    (h4 : s1.reconcileReturnsOf w = s.reconcileReturnsOf w)
    (h : wrapperInv s w pc) : wrapperInv s1 w pc := by
  rcases pc with _ | pc
  · simp only [wrapperInv, h1, h2, h3, h4] at h ⊢
    exact h
  · cases pc <;> simp only [wrapperInv, h1, h2, h3, h4] at h ⊢ <;> exact h

/-- An entry of worker `w` appended to a history is appended to the history of `w`. -/
theorem filter_snoc_self {α : Type} (l : List (Nat × α)) (w : Nat) (a : α) :
    ((l ++ [(w, a)]).filter (fun x => x.1 == w)).map (fun x => x.2) =
      (l.filter (fun x => x.1 == w)).map (fun x => x.2) ++ [a] := by
  simp [List.filter_append]

/-- An entry of another worker appended to a history leaves the history of `w` as it
was. -/
theorem filter_snoc_other {α : Type} (l : List (Nat × α)) {w v : Nat} (a : α) (h : v ≠ w) :
    ((l ++ [(v, a)]).filter (fun x => x.1 == w)).map (fun x => x.2) =
      (l.filter (fun x => x.1 == w)).map (fun x => x.2) := by
  simp [List.filter_append, h]

/-- Every step keeps the invariant of the wrapper on every worker. -/
theorem wrapperInv_step {σ : Type} (inner : Inner σ) {s s1 : State σ} {e : Event}
    (hinv : WrapperInv s) (h : step inner s e = some s1) : WrapperInv s1 := by
  cases e with
  | dequeue w req =>
    simp only [step] at h
    split at h
    · rename_i hpc
      cases h
      intro v
      have hv := hinv v
      by_cases hvw : w = v
      · subst hvw
        have hlt : w < s.workers.length := (List.getElem?_eq_some.1 hpc).1
        rw [hpc] at hv
        simp only [List.getElem?_set_self hlt, wrapperInv, State.reconcileCallsOf,
          State.innerCallsOf, State.innerReturnsOf, State.reconcileReturnsOf,
          filter_snoc_self] at hv ⊢
        simp [hv.1, hv.2.1, hv.2.2]
      · simp only [List.getElem?_set_ne hvw]
        refine wrapperInv_congr s ?_ rfl rfl rfl hv
        simp only [State.reconcileCallsOf, filter_snoc_other _ _ hvw]
    · cases h
  | runReconcile c =>
    simp only [step] at h
    split at h
    · cases h; exact hinv
    · cases h
  | start c w =>
    simp only [step] at h
    split at h
    · rename_i req hcl hpc
      cases h
      intro v
      have hv := hinv v
      by_cases hvw : w = v
      · subst hvw
        have hlt : w < s.workers.length := (List.getElem?_eq_some.1 hpc).1
        rw [hpc] at hv
        simp only [List.getElem?_set_self hlt]
        exact hv
      · simp only [List.getElem?_set_ne hvw]
        exact hv
    · cases h
  | invoke w =>
    simp only [step] at h
    split at h
    · rename_i req t hpc
      cases h
      intro v
      have hv := hinv v
      by_cases hvw : w = v
      · subst hvw
        have hlt : w < s.workers.length := (List.getElem?_eq_some.1 hpc).1
        rw [hpc] at hv
        simp only [List.getElem?_set_self hlt, wrapperInv, State.reconcileCallsOf,
          State.innerCallsOf, State.innerReturnsOf, State.reconcileReturnsOf,
          filter_snoc_self] at hv ⊢
        simp [hv.1, hv.2.1, hv.2.2]
      · simp only [List.getElem?_set_ne hvw]
        refine wrapperInv_congr s rfl ?_ rfl rfl hv
        simp only [State.innerCallsOf, filter_snoc_other _ _ hvw]
    · cases h
  | innerReturn w =>
    simp only [step] at h
    split at h
    · rename_i req t hpc
      cases h
      intro v
      have hv := hinv v
      by_cases hvw : w = v
      · subst hvw
        have hlt : w < s.workers.length := (List.getElem?_eq_some.1 hpc).1
        rw [hpc] at hv
        simp only [List.getElem?_set_self hlt, wrapperInv, State.reconcileCallsOf,
          State.innerCallsOf, State.innerReturnsOf, State.reconcileReturnsOf,
          filter_snoc_self] at hv ⊢
        simp [hv.1, hv.2.1, hv.2.2]
      · simp only [List.getElem?_set_ne hvw]
        refine wrapperInv_congr s rfl rfl ?_ rfl hv
        simp only [State.innerReturnsOf, filter_snoc_other _ _ hvw]
    · cases h
  | done w c =>
    simp only [step] at h
    split at h
    · rename_i req out t u hpc hcl
      cases h
      intro v
      have hv := hinv v
      by_cases hvw : w = v
      · subst hvw
        have hlt : w < s.workers.length := (List.getElem?_eq_some.1 hpc).1
        rw [hpc] at hv
        simp only [List.getElem?_set_self hlt]
        exact hv
      · simp only [List.getElem?_set_ne hvw]
        exact hv
    · cases h
  | reconcileReturn w =>
    simp only [step] at h
    split at h
    · rename_i req out hpc
      cases h
      intro v
      have hv := hinv v
      by_cases hvw : w = v
      · subst hvw
        have hlt : w < s.workers.length := (List.getElem?_eq_some.1 hpc).1
        rw [hpc] at hv
        simp only [List.getElem?_set_self hlt, wrapperInv, State.reconcileCallsOf,
          State.innerCallsOf, State.innerReturnsOf, State.reconcileReturnsOf,
          filter_snoc_self] at hv ⊢
        simp [hv.1, hv.2.1, hv.2.2]
      · simp only [List.getElem?_set_ne hvw]
        refine wrapperInv_congr s rfl rfl rfl ?_ hv
        simp only [State.reconcileReturnsOf, filter_snoc_other _ _ hvw]
    · cases h
  | runReconcileReturn c =>
    simp only [step] at h
    split at h
    · cases h; exact hinv
    · cases h

/-- Every run keeps the invariant of the wrapper on every worker. -/
theorem wrapperInv_run {σ : Type} (inner : Inner σ) (es : List Event) :
    ∀ {s s1 : State σ}, WrapperInv s → run inner s es = some s1 → WrapperInv s1 := by
  induction es with
  | nil =>
    intro s s1 hinv h
    simp only [run] at h
    cases h
    exact hinv
  | cons e es ih =>
    intro s s1 hinv h
    simp only [run] at h
    cases hstep : step inner s e with
    | none => rw [hstep] at h; cases h
    | some s2 =>
      rw [hstep] at h
      exact ih (wrapperInv_step inner hinv hstep) h

/-- The initial state has the invariant of the wrapper, whatever the number of workers.
-/
theorem wrapperInv_initial {σ : Type} (options : Options) (callers : Nat) (store : σ) :
    WrapperInv (initial options callers store) := by
  intro w
  simp only [initial, List.getElem?_replicate]
  split
  all_goals
    simp [wrapperInv, State.reconcileCallsOf, State.innerCallsOf, State.innerReturnsOf,
      State.reconcileReturnsOf]

/-- A pass driven through `RunReconcile` runs to its end: from a worker that
waits in `Reconcile(req)` and an idle caller, the steps of `passEvents` are
enabled one after the other. -/
theorem run_passEvents {σ : Type} (inner : Inner σ) (s : State σ) {c w : Nat} {req : Request}
    (hw : s.workers[w]? = some (.waitStart req)) (hc : s.callers[c]? = some .idle) :
    ∃ s1, run inner s (passEvents c w) = some s1
      ∧ s1.store = (inner req s.store).2
      ∧ s1.reconcileCalls = s.reconcileCalls
      ∧ s1.innerCalls = s.innerCalls ++ [(w, req)]
      ∧ s1.innerReturns = s.innerReturns ++ [(w, req, (inner req s.store).1)]
      ∧ s1.reconcileReturns = s.reconcileReturns ++ [(w, req, (inner req s.store).1)]
      ∧ s1.runReconcileReturns = s.runReconcileReturns + 1
      ∧ s1.workers = s.workers.set w .idle
      ∧ s1.callers = s.callers.set c .idle := by
  have hwlt : w < s.workers.length := (List.getElem?_eq_some.1 hw).1
  have hclt : c < s.callers.length := (List.getElem?_eq_some.1 hc).1
  simp [passEvents, run, step, hw, hc, List.getElem?_set, hwlt, hclt]

/-- C7: in every state reached from the initial state, on every worker `w`:
the wrapper calls returned have returned, in order, the request and the
`(result, error)` pair of the inner calls returned; the inner calls were made
with the requests of the wrapper calls, one inner call for a wrapper call;
at most one wrapper call has not returned; when the worker is outside
`Reconcile` the four histories agree, so each call of `Reconcile(req)` made
exactly one inner call, with `req`, and returned its pair; and a wrapper call
that waits for the start signal does return once a caller drives the pass. -/
theorem Reconcile_returns_inner_outcome {σ : Type} (inner : Inner σ) (options : Options)
    (callers : Nat) (store : σ) (es : List Event) (s : State σ) (w : Nat)
    (h : run inner (initial options callers store) es = some s) :
    s.reconcileReturnsOf w <+: s.innerReturnsOf w
      ∧ (s.innerReturnsOf w).map Prod.fst <+: s.innerCallsOf w
      ∧ s.innerCallsOf w <+: s.reconcileCallsOf w
      ∧ (s.reconcileCallsOf w).length ≤ (s.reconcileReturnsOf w).length + 1
      ∧ (s.workers[w]? = some WorkerPc.idle →
          (s.reconcileReturnsOf w).map Prod.fst = s.reconcileCallsOf w
            ∧ s.innerCallsOf w = s.reconcileCallsOf w
            ∧ s.innerReturnsOf w = s.reconcileReturnsOf w)
      ∧ (∀ (c : Nat) (req : Request), s.workers[w]? = some (WorkerPc.waitStart req) →
          s.callers[c]? = some CallerPc.idle →
          ∃ s1, run inner s (passEvents c w) = some s1
            ∧ s1.innerCalls = s.innerCalls ++ [(w, req)]
            ∧ s1.reconcileReturns = s.reconcileReturns ++ [(w, req, (inner req s.store).1)]) := by
  have hinv := wrapperInv_run inner es (wrapperInv_initial options callers store) h w
  refine ⟨?_, ?_, ?_, ?_, ?_, ?_⟩
  · rcases hpc : s.workers[w]? with _ | pc <;> rw [hpc] at hinv
    · simp only [wrapperInv] at hinv; simp [hinv]
    · cases pc <;> simp only [wrapperInv] at hinv <;> simp [hinv]
  · rcases hpc : s.workers[w]? with _ | pc <;> rw [hpc] at hinv
    · simp only [wrapperInv] at hinv; simp [hinv]
    · cases pc <;> simp only [wrapperInv] at hinv <;> simp [hinv]
  · rcases hpc : s.workers[w]? with _ | pc <;> rw [hpc] at hinv
    · simp only [wrapperInv] at hinv; simp [hinv]
    · cases pc <;> simp only [wrapperInv] at hinv <;> simp [hinv]
  · rcases hpc : s.workers[w]? with _ | pc <;> rw [hpc] at hinv
    · simp only [wrapperInv] at hinv; simp [hinv]
    · cases pc <;> simp only [wrapperInv] at hinv <;> simp [hinv]
  · intro hidle
    rw [hidle] at hinv
    simp only [wrapperInv] at hinv
    simp [hinv]
  · intro c req hw hc
    obtain ⟨s1, h1, -, -, h2, -, h3, -⟩ := run_passEvents inner s hw hc
    exact ⟨s1, h1, h2, h3⟩

/-- A worker that waits for the start signal stays there, and invokes nothing,
as long as no goroutine calls `RunReconcile`. -/
theorem waiting_worker_step {σ : Type} (inner : Inner σ) {s s1 : State σ} {e : Event}
    {w : Nat} {req : Request} (hw : s.workers[w]? = some (WorkerPc.waitStart req))
    (hq : ∀ c : Nat, s.callers[c]? ≠ some CallerPc.sendStart)
    (he : ∀ c : Nat, e ≠ Event.runReconcile c) (h : step inner s e = some s1) :
    s1.workers[w]? = some (WorkerPc.waitStart req)
      ∧ s1.innerCallsOf w = s.innerCallsOf w
      ∧ ∀ c : Nat, s1.callers[c]? ≠ some CallerPc.sendStart := by
  have hset : ∀ (cs : List CallerPc) (c : Nat) (pc : CallerPc), pc ≠ CallerPc.sendStart →
      (∀ i : Nat, cs[i]? ≠ some CallerPc.sendStart) →
      ∀ i : Nat, (cs.set c pc)[i]? ≠ some CallerPc.sendStart := by
    intro cs c pc hpc hcs i hi
    rw [List.getElem?_set] at hi
    split at hi
    · split at hi
      · exact hpc (Option.some.inj hi)
      · cases hi
    · exact hcs i hi
  cases e with
  | dequeue v r =>
    simp only [step] at h
    split at h
    · rename_i hpc
      cases h
      have hvw : v ≠ w := by
        intro e; subst e; rw [hw] at hpc; cases hpc
      exact ⟨by simp only [List.getElem?_set_ne hvw]; exact hw, rfl, hq⟩
    · cases h
  | runReconcile c => exact absurd rfl (he c)
  | start c v =>
    simp only [step] at h
    split at h
    · rename_i r hcl hpc
      exact absurd hcl (hq c)
    · cases h
  | invoke v =>
    simp only [step] at h
    split at h
    · rename_i r t hpc
      cases h
      have hvw : v ≠ w := by
        intro e; subst e; rw [hw] at hpc; cases hpc
      refine ⟨by simp only [List.getElem?_set_ne hvw]; exact hw, ?_, hq⟩
      simp only [State.innerCallsOf, filter_snoc_other _ _ hvw]
    · cases h
  | innerReturn v =>
    simp only [step] at h
    split at h
    · rename_i r t hpc
      cases h
      have hvw : v ≠ w := by
        intro e; subst e; rw [hw] at hpc; cases hpc
      exact ⟨by simp only [List.getElem?_set_ne hvw]; exact hw, rfl, hq⟩
    · cases h
  | done v c =>
    simp only [step] at h
    split at h
    · rename_i r out t u hpc hcl
      cases h
      have hvw : v ≠ w := by
        intro e; subst e; rw [hw] at hpc; cases hpc
      exact ⟨by simp only [List.getElem?_set_ne hvw]; exact hw, rfl,
        hset _ c _ (by simp) hq⟩
    · cases h
  | reconcileReturn v =>
    simp only [step] at h
    split at h
    · rename_i r out hpc
      cases h
      have hvw : v ≠ w := by
        intro e; subst e; rw [hw] at hpc; cases hpc
      exact ⟨by simp only [List.getElem?_set_ne hvw]; exact hw, rfl, hq⟩
    · cases h
  | runReconcileReturn c =>
    simp only [step] at h
    split at h
    · cases h
      exact ⟨hw, rfl, hset _ c _ (by simp) hq⟩
    · cases h

/-- A worker that waits for the start signal stays there, and invokes nothing, along a
run in which no goroutine calls `RunReconcile`. -/
theorem waiting_worker_run {σ : Type} (inner : Inner σ) (es : List Event) :
    ∀ {s s1 : State σ} {w : Nat} {req : Request},
      s.workers[w]? = some (WorkerPc.waitStart req) →
      (∀ c : Nat, s.callers[c]? ≠ some CallerPc.sendStart) →
      (∀ e ∈ es, ∀ c : Nat, e ≠ Event.runReconcile c) →
      run inner s es = some s1 →
      s1.workers[w]? = some (WorkerPc.waitStart req)
        ∧ s1.innerCallsOf w = s.innerCallsOf w
        ∧ ∀ c : Nat, s1.callers[c]? ≠ some CallerPc.sendStart := by
  induction es with
  | nil =>
    intro s s1 w req hw hq _ h
    simp only [run] at h
    cases h
    exact ⟨hw, rfl, hq⟩
  | cons e es ih =>
    intro s s1 w req hw hq hes h
    simp only [run] at h
    cases hstep : step inner s e with
    | none => rw [hstep] at h; cases h
    | some s2 =>
      rw [hstep] at h
      obtain ⟨h1, h2, h3⟩ :=
        waiting_worker_step inner hw hq (hes e (List.mem_cons_self _ _)) hstep
      obtain ⟨h4, h5, h6⟩ :=
        ih h1 h3 (fun e1 he1 => hes e1 (List.mem_cons_of_mem _ he1)) h
      exact ⟨h4, h5.trans h2, h6⟩

/-- C10, amended: while no `RunReconcile` call is pending (no caller blocked
on the send of the start signal, and no goroutine calling `RunReconcile`), a
call of `Reconcile(req)` that waits at the receive of `startReconcile` stays
there and does not invoke the inner reconciler; once a goroutine calls
`RunReconcile`, the signal is received and the inner reconciler is invoked
with `req`. -/
theorem Reconcile_waits_for_start_signal {σ : Type} (inner : Inner σ) (s s1 : State σ)
    (w : Nat) (req : Request) (es : List Event)
    (hw : s.workers[w]? = some (WorkerPc.waitStart req))
    (hq : ∀ c : Nat, s.callers[c]? ≠ some CallerPc.sendStart)
    (hes : ∀ e ∈ es, ∀ c : Nat, e ≠ Event.runReconcile c)
    (h : run inner s es = some s1) :
    s1.workers[w]? = some (WorkerPc.waitStart req)
      ∧ s1.innerCallsOf w = s.innerCallsOf w
      ∧ ∀ c : Nat, s1.callers[c]? = some CallerPc.idle →
          ∃ s2, run inner s1 [.runReconcile c, .start c w, .invoke w] = some s2
            ∧ s2.innerCalls = s1.innerCalls ++ [(w, req)] := by
  obtain ⟨h1, h2, -⟩ := waiting_worker_run inner es hw hq hes h
  refine ⟨h1, h2, ?_⟩
  intro c hc
  have hwlt : w < s1.workers.length := (List.getElem?_eq_some.1 h1).1
  have hclt : c < s1.callers.length := (List.getElem?_eq_some.1 hc).1
  simp [run, step, h1, hc, List.getElem?_set, hwlt, hclt]

/-! ## The reconcile engine behind the wrapper -/

/-- A ManagedOCS object found by name and namespace has that name and namespace. -/
theorem getManagedOCS_some {c : Cluster} {name ns : String} {m : ManagedOCS}
    (h : c.getManagedOCS name ns = some m) : m.Name = name ∧ m.Namespace = ns := by
  have := List.find?_some h
  simpa using this

/-- A status update of the ManagedOCS object leaves the StorageClusters as they are. -/
theorem updateManagedOCSStatus_storageClusters (c : Cluster) (m : ManagedOCS) :
    (c.updateManagedOCSStatus m).StorageClusters = c.StorageClusters := rfl

/-- A status update of the ManagedOCS object does not change the lookup of a
StorageCluster. -/
theorem updateManagedOCSStatus_getStorageCluster (c : Cluster) (m : ManagedOCS)
    (name ns : String) :
    (c.updateManagedOCSStatus m).getStorageCluster name ns = c.getStorageCluster name ns := rfl

/-- Without a size the engine leaves the StorageClusters as they are. -/
theorem Reconcile_without_size (r : ManagedOCSReconciler) (p : EngineParams) (req : Request)
    (c : Cluster) (h : r.readSize c req.NamespacedName.Namespace = none) :
    (r.Reconcile p req c).2.StorageClusters = c.StorageClusters := by
  unfold ManagedOCSReconciler.Reconcile
  split
  · rfl
  · rename_i m hm
    rw [(getManagedOCS_some hm).2, h]
    rfl

/-- With a size and no StorageCluster the engine creates the StorageCluster. -/
theorem Reconcile_with_size (r : ManagedOCSReconciler) (p : EngineParams) (req : Request)
    (c : Cluster) (m : ManagedOCS) (size : Nat)
    (hm : c.getManagedOCS req.NamespacedName.Name req.NamespacedName.Namespace = some m)
    (hsize : r.readSize c req.NamespacedName.Namespace = some size)
    (hsc : c.getStorageCluster p.storageClusterName req.NamespacedName.Namespace = none) :
    (r.Reconcile p req c).2.getStorageCluster p.storageClusterName
        req.NamespacedName.Namespace =
      some { Name := p.storageClusterName, Namespace := req.NamespacedName.Namespace,
             Owner := m.Name, Spec := p.desiredSpec m.SpecReconcileStrategy size, Phase := "" }
    ∧ (r.Reconcile p req c).2.StorageClusters = c.StorageClusters ++
        [{ Name := p.storageClusterName, Namespace := req.NamespacedName.Namespace,
           Owner := m.Name, Spec := p.desiredSpec m.SpecReconcileStrategy size, Phase := "" }] := by
  have hns := (getManagedOCS_some hm).2
  unfold ManagedOCSReconciler.Reconcile
  rw [hm]
  simp only [hns, hsize, hsc]
  simp only [updateManagedOCSStatus_getStorageCluster, updateManagedOCSStatus_storageClusters]
  constructor
  · simp only [Cluster.getStorageCluster, Cluster.createStorageCluster] at hsc ⊢
    rw [List.find?_append, hsc]
    simp
  · rfl

/-- C5: a reconciliation pass driven through `RunReconcile`, for a request in
whose namespace the add-on parameters secret is absent, or is present without
a size that parses as a strict base-10 positive integer, runs to its end and
leaves the StorageClusters as they were: a StorageCluster that did not exist
before the pass does not exist after it. -/
theorem no_size_no_storageCluster (r : ManagedOCSReconciler) (p : EngineParams)
    (s : State Cluster) (c w : Nat) (req : Request)
    (hw : s.workers[w]? = some (WorkerPc.waitStart req))
    (hc : s.callers[c]? = some CallerPc.idle)
    (hsize : s.store.getSecret r.AddonParamSecretName req.NamespacedName.Namespace = none
      ∨ ∃ sec, s.store.getSecret r.AddonParamSecretName req.NamespacedName.Namespace = some sec
          ∧ (sec.Data.lookup "size").bind parseSize = none) :
    ∃ s1, run (r.Reconcile p) s (passEvents c w) = some s1
      ∧ s1.innerCalls = s.innerCalls ++ [(w, req)]
      ∧ s1.store.StorageClusters = s.store.StorageClusters
      ∧ ∀ name ns, s.store.getStorageCluster name ns = none →
          s1.store.getStorageCluster name ns = none := by
  have hread : r.readSize s.store req.NamespacedName.Namespace = none := by
    unfold ManagedOCSReconciler.readSize
    rcases hsize with h | ⟨sec, h, h2⟩
    · rw [h]; rfl
    · rw [h]; exact h2
  obtain ⟨s1, h1, hstore, -, hcalls, -⟩ := run_passEvents (r.Reconcile p) s hw hc
  have hsc : s1.store.StorageClusters = s.store.StorageClusters := by
    rw [hstore]; exact Reconcile_without_size r p req s.store hread
  refine ⟨s1, h1, hcalls, hsc, ?_⟩
  intro name ns hnone
  simp only [Cluster.getStorageCluster, hsc] at hnone ⊢
  exact hnone

/-- The engine returns the successful outcome on every request and store. -/
theorem Reconcile_outcome (r : ManagedOCSReconciler) (p : EngineParams) (req : Request)
    (c : Cluster) : (r.Reconcile p req c).1 = success := by
  unfold ManagedOCSReconciler.Reconcile
  split
  · rfl
  · split <;> rfl

/-- C6, amended: when the request the worker holds names a ManagedOCS object
that exists, the add-on parameters secret of its namespace has a size that
parses as a positive integer and no StorageCluster of the well-known name
exists there, one reconciliation pass for that request driven through
`RunReconcile`, on a store whose operations succeed, runs to its end, returns
without an error, and the StorageCluster then exists, with the well-known
name, in the namespace of the ManagedOCS object, owned by it and with the
desired spec. -/
theorem valid_size_creates_storageCluster (r : ManagedOCSReconciler) (p : EngineParams)
    (s : State Cluster) (c w : Nat) (req : Request) (m : ManagedOCS) (sec : Secret)
    (value : String) (size : Nat)
    (hw : s.workers[w]? = some (WorkerPc.waitStart req))
    (hc : s.callers[c]? = some CallerPc.idle)
    (hm : s.store.getManagedOCS req.NamespacedName.Name req.NamespacedName.Namespace = some m)
    (hsec : s.store.getSecret r.AddonParamSecretName req.NamespacedName.Namespace = some sec)
    (hvalue : sec.Data.lookup "size" = some value)
    (hsize : parseSize value = some size)
    (hsc : s.store.getStorageCluster p.storageClusterName req.NamespacedName.Namespace = none) :
    ∃ s1 sc, run (r.Reconcile p) s (passEvents c w) = some s1
      ∧ s1.innerCalls = s.innerCalls ++ [(w, req)]
      ∧ s1.reconcileReturns = s.reconcileReturns ++ [(w, req, success)]
      ∧ s1.store.getStorageCluster p.storageClusterName req.NamespacedName.Namespace = some sc
      ∧ sc.Name = p.storageClusterName
      ∧ sc.Namespace = m.Namespace
      ∧ sc.Owner = m.Name
      ∧ sc.Spec = p.desiredSpec m.SpecReconcileStrategy size := by
  have hread : r.readSize s.store req.NamespacedName.Namespace = some size := by
    unfold ManagedOCSReconciler.readSize
    rw [hsec]
    simp [hvalue, hsize]
  obtain ⟨s1, h1, hstore, -, hcalls, -, hret, -⟩ := run_passEvents (r.Reconcile p) s hw hc
  obtain ⟨hget, -⟩ := Reconcile_with_size r p req s.store m size hm hread hsc
  rw [← hstore] at hget
  rw [Reconcile_outcome] at hret
  exact ⟨s1, _, h1, hcalls, hret, hget, rfl, (getManagedOCS_some hm).2.symm, rfl, rfl⟩

/-! ## The secret watch map function -/

/-- C1: for a Secret notification whose object name equals the configured
`AddonParamSecretName`, the secret watch map function returns exactly one
request, named `managedocs`, in the namespace of the secret; any other
notification with the same name and namespace gets the same result, so no
other field of the notification influences it. -/
theorem secretWatch_matching_name (r : ManagedOCSReconciler) (obj : MapObject)
    (h : obj.Meta.Name = r.AddonParamSecretName) :
    addonParamsSecretWatchHandler r obj =
        [{ NamespacedName := { Name := "managedocs", Namespace := obj.Meta.Namespace } }]
      ∧ ∀ other : MapObject, other.Meta.Name = obj.Meta.Name →
          other.Meta.Namespace = obj.Meta.Namespace →
          addonParamsSecretWatchHandler r other = addonParamsSecretWatchHandler r obj := by
  constructor
  · simp [addonParamsSecretWatchHandler, h]
  · intro other hn hns
    simp [addonParamsSecretWatchHandler, hn, hns]

/-- Witness of C1: the add-on secret of the test suite in the primary namespace. -/
theorem secretWatch_matching_name_witness :
    addonParamsSecretWatchHandler sampleReconciler
        { Meta := sampleMeta "test-addon-secret" "primary" 1, Object := [("size", "1")] } =
      [{ NamespacedName := { Name := "managedocs", Namespace := "primary" } }] :=
  (secretWatch_matching_name sampleReconciler
    { Meta := sampleMeta "test-addon-secret" "primary" 1, Object := [("size", "1")] }
    (by decide)).1

/-- C2: for a Secret notification whose object name differs from the
configured `AddonParamSecretName`, the secret watch map function returns no
request; hence for every input it returns zero or one request. -/
theorem secretWatch_other_name (r : ManagedOCSReconciler) (obj : MapObject) :
    (obj.Meta.Name ≠ r.AddonParamSecretName → addonParamsSecretWatchHandler r obj = [])
      ∧ (addonParamsSecretWatchHandler r obj).length ≤ 1 := by
  constructor
  · intro h
    simp [addonParamsSecretWatchHandler, h]
  · unfold addonParamsSecretWatchHandler
    split <;> simp

/-- Witness of C2: the name of the add-on secret in another letter case is another name. -/
theorem secretWatch_other_name_witness :
    addonParamsSecretWatchHandler sampleReconciler
        { Meta := sampleMeta "Test-Addon-Secret" "primary" 1, Object := [] } = [] :=
  (secretWatch_other_name sampleReconciler
    { Meta := sampleMeta "Test-Addon-Secret" "primary" 1, Object := [] }).1 (by decide)

/-! ## The watch configuration and sample runs -/

/-- The controller `SetupWithManager` builds, watch by watch. -/
theorem SetupWithManager_eq (r : ManagedOCSReconciler) :
    SetupWithManager r = some
      { Options := { MaxConcurrentReconciles := 1 },
        Watches :=
          [{ Kind := .ManagedOCS, Handler := .EnqueueRequestForObject,
             Predicates := [.GenerationChangedPredicate] },
           { Kind := .StorageCluster, Handler := .EnqueueRequestForOwner .ManagedOCS true,
             Predicates := [] },
           { Kind := .Secret,
             Handler := .EnqueueRequestsFromMapFunc (addonParamsSecretWatchHandler r),
             Predicates := [] }] } := rfl

/-- C8: for an update notification of a ManagedOCS object, the controller
built by `SetupWithManager` rejects it and enqueues no request when the
generation is the same before and after the update, and admits it, enqueuing
the request of the object, when the generation changed. -/
theorem managedOCS_update_generation_filter (r : ManagedOCSReconciler) (n : Notification)
    (hk : n.Kind = Kind.ManagedOCS) (hc : n.Change = ChangeType.Update) :
    ∃ ctl, SetupWithManager r = some ctl
      ∧ (n.Obj.Meta.Generation = n.MetaOld.Generation →
          ctl.admits n = false ∧ ctl.enqueue n = [])
      ∧ (n.Obj.Meta.Generation ≠ n.MetaOld.Generation →
          ctl.admits n = true ∧ ctl.enqueue n =
            [{ NamespacedName :=
                { Name := n.Obj.Meta.Name, Namespace := n.Obj.Meta.Namespace } }]) := by
  refine ⟨_, SetupWithManager_eq r, ?_, ?_⟩
  · intro hg
    simp only [Controller.admits, Controller.enqueue, Watch.enqueue, Watch.admits,
      List.all_cons, List.all_nil, List.any_cons, List.any_nil, List.flatMap_cons,
      List.flatMap_nil, Predicate.admits, hk, hc, hg]
    simp
  · intro hg
    simp [Controller.admits, Controller.enqueue, Watch.enqueue, Watch.admits, Predicate.admits,
      hk, hc, hg, EventHandler.requests]

/-- C9: in the controller built by `SetupWithManager` the generation-changed
predicate is on the ManagedOCS watch only, the StorageCluster and the Secret
watch carry no predicate; so every notification of the well-known secret,
an update that leaves its generation unchanged included, is admitted and
yields the request of `managedocs` in the namespace of the secret, and every
notification of a StorageCluster is admitted and yields the request of each
controlling ManagedOCS owner. -/
theorem generation_filter_scope (r : ManagedOCSReconciler) :
    ∃ ctl, SetupWithManager r = some ctl
      ∧ ctl.Watches.map (fun w => (w.Kind, w.Predicates)) =
          [(Kind.ManagedOCS, [Predicate.GenerationChangedPredicate]),
           (Kind.StorageCluster, []), (Kind.Secret, [])]
      ∧ (∀ n : Notification, n.Kind = Kind.Secret →
          n.Obj.Meta.Name = r.AddonParamSecretName →
          ctl.admits n = true ∧ ctl.enqueue n =
            [{ NamespacedName := { Name := "managedocs", Namespace := n.Obj.Meta.Namespace } }])
      ∧ (∀ n : Notification, n.Kind = Kind.StorageCluster →
          ctl.admits n = true ∧
          ∀ ref ∈ n.Obj.Meta.OwnerReferences, ref.Kind = Kind.ManagedOCS →
            ref.Controller = true →
            ({ NamespacedName := { Name := ref.Name, Namespace := n.Obj.Meta.Namespace } } : Request)
              ∈ ctl.enqueue n) := by
  refine ⟨_, SetupWithManager_eq r, rfl, ?_, ?_⟩
  · intro n hk hn
    simp [Controller.admits, Controller.enqueue, Watch.enqueue, Watch.admits, hk,
      EventHandler.requests, addonParamsSecretWatchHandler, hn]
  · intro n hk
    refine ⟨by simp [Controller.admits, Watch.admits, hk], ?_⟩
    intro ref href hrk hrc
    simp only [Controller.enqueue, Watch.enqueue, Watch.admits, hk,
      EventHandler.requests, List.flatMap_cons, List.flatMap_nil]
    simp
    exact ⟨ref, ⟨href, hrk, hrc⟩, rfl⟩



/-- The cap of one concurrent reconcile is what serializes the passes: with two
workers and two callers two inner calls are in flight at once. -/
theorem two_workers_overlap :
    ∃ s, run noopInner (initial { MaxConcurrentReconciles := 2 } 2 ())
        [.dequeue 0 sampleRequest, .dequeue 1 sampleRequest, .runReconcile 0, .runReconcile 1,
         .start 0 0, .start 1 1, .invoke 0, .invoke 1] = some s
      ∧ (s.workers.filter WorkerPc.inFlight).length = 2 :=
  ⟨_, rfl, rfl⟩

/-- Witness of C3: the state right before `RunReconcile` returns from its first pass. -/
theorem RunReconcile_exactly_one_pass_witness :
    Reachable noopInner 1 () sampleFinishing
      ∧ ∃ t, sampleFinishing.callers = [CallerPc.finishing t]
          ∧ sampleFinishing.started = t + 1 ∧ sampleFinishing.finished = t + 1 :=
  ⟨⟨[.dequeue 0 sampleRequest, .runReconcile 0, .start 0 0, .invoke 0, .innerReturn 0,
      .done 0 0], rfl⟩,
    (RunReconcile_exactly_one_pass noopInner () sampleFinishing
      ⟨[.dequeue 0 sampleRequest, .runReconcile 0, .start 0 0, .invoke 0, .innerReturn 0,
        .done 0 0], rfl⟩).2.2 0 _ rfl⟩

/-- Witness of C4: two callers, the first driving a pass, the second blocked on its send. -/
theorem single_worker_serializes_witness :
    Reachable noopInner 2 () sampleSending
      ∧ (sampleSending.workers.filter WorkerPc.inFlight).length ≤ 1
      ∧ sampleSending.started ≤ sampleSending.finished + 1 :=
  ⟨⟨[.dequeue 0 sampleRequest, .runReconcile 0, .runReconcile 1, .start 0 0, .invoke 0,
      .innerReturn 0], rfl⟩,
    (single_worker_serializes noopInner 2 () sampleSending
      ⟨[.dequeue 0 sampleRequest, .runReconcile 0, .runReconcile 1, .start 0 0, .invoke 0,
        .innerReturn 0], rfl⟩).1,
    (single_worker_serializes noopInner 2 () sampleSending
      ⟨[.dequeue 0 sampleRequest, .runReconcile 0, .runReconcile 1, .start 0 0, .invoke 0,
        .innerReturn 0], rfl⟩).2.2.1⟩

/-- Witness of C5: a pass without the secret and a pass with the size `AA`. -/
theorem no_size_no_storageCluster_witness :
    (∃ s1, run (sampleReconciler.Reconcile sampleParams)
          (sampleEngineState (sampleCluster [])) (passEvents 0 0) = some s1
        ∧ s1.store.StorageClusters = [])
      ∧ ∃ s1, run (sampleReconciler.Reconcile sampleParams)
          (sampleEngineState (sampleCluster [sampleSecret "AA"])) (passEvents 0 0) = some s1
        ∧ s1.store.StorageClusters = [] := by
  constructor
  · obtain ⟨s1, h1, -, h2, -⟩ := no_size_no_storageCluster sampleReconciler sampleParams
      (sampleEngineState (sampleCluster [])) 0 0 sampleRequest rfl rfl (Or.inl (by decide))
    exact ⟨s1, h1, h2⟩
  · obtain ⟨s1, h1, -, h2, -⟩ := no_size_no_storageCluster sampleReconciler sampleParams
      (sampleEngineState (sampleCluster [sampleSecret "AA"])) 0 0 sampleRequest rfl rfl
      (Or.inr ⟨sampleSecret "AA", by decide, by decide⟩)
    exact ⟨s1, h1, h2⟩

/-- Witness of C6, amended: a pass with the size `1` for the request that names the object. -/
theorem valid_size_creates_storageCluster_witness :
    ∃ s1 sc, run (sampleReconciler.Reconcile sampleParams)
          (sampleEngineState (sampleCluster [sampleSecret "1"])) (passEvents 0 0) = some s1
        ∧ s1.store.getStorageCluster "ocs-storagecluster" "primary" = some sc
        ∧ sc.Owner = "managedocs"
        ∧ sc.Spec = { Fields := [("deviceSet", "1")] } := by
  obtain ⟨s1, sc, h1, -, -, h2, -, -, h3, h4⟩ :=
    valid_size_creates_storageCluster sampleReconciler sampleParams
      (sampleEngineState (sampleCluster [sampleSecret "1"])) 0 0 sampleRequest sampleManagedOCS
      (sampleSecret "1") "1" 1 rfl rfl (by decide) (by decide) (by decide) (by decide)
      (by decide)
  exact ⟨s1, sc, h1, h2, h3, h4⟩

/-- Counterexample to C6: the state of the controller test before the pass
that is to create the StorageCluster. The ManagedOCS object `test-managedocs`
exists in `default`, the add-on parameters secret has the size `1`, no
StorageCluster exists, and the worker holds the request the secret watch
enqueued for the secret, `managedocs` in `default`, which names no object.
The pass driven through `RunReconcile` runs to its end, both calls return,
and no StorageCluster exists. -/
theorem pass_for_other_request_creates_nothing :
    addonParamsSecretWatchHandler sampleReconciler testSecretObject = [testRequest]
      ∧ run (sampleReconciler.Reconcile sampleParams)
          (initial ctrlOptions 1 testCluster) [.dequeue 0 testRequest] = some testEngineState
      ∧ testEngineState.store.getManagedOCS "test-managedocs" "default" = some testManagedOCS
      ∧ testEngineState.store.getSecret sampleReconciler.AddonParamSecretName "default" =
          some testSecret
      ∧ (testSecret.Data.lookup "size").bind parseSize = some 1
      ∧ testEngineState.store.StorageClusters = []
      ∧ ∃ s1, run (sampleReconciler.Reconcile sampleParams) testEngineState (passEvents 0 0) =
            some s1
          ∧ s1.reconcileReturns = [(0, testRequest, success)]
          ∧ s1.runReconcileReturns = 1
          ∧ s1.store.StorageClusters = [] :=
  ⟨by decide, rfl, by decide, by decide, by decide, rfl, _, rfl, by decide, rfl, by decide⟩

/-- Witness of C7: after one complete pass the wrapper has returned the pair of the inner call. -/
theorem Reconcile_returns_inner_outcome_witness :
    run noopInner (initial ctrlOptions 1 ()) (.dequeue 0 sampleRequest :: passEvents 0 0) =
        some sampleReturned
      ∧ sampleReturned.reconcileReturnsOf 0 = [(sampleRequest, success)]
      ∧ sampleReturned.innerCallsOf 0 = sampleReturned.reconcileCallsOf 0
      ∧ sampleReturned.innerReturnsOf 0 = sampleReturned.reconcileReturnsOf 0 :=
  ⟨rfl, rfl,
    ((Reconcile_returns_inner_outcome noopInner ctrlOptions 1 ()
      (.dequeue 0 sampleRequest :: passEvents 0 0) sampleReturned 0 rfl).2.2.2.2.1 rfl).2⟩

/-- Witness of C8: a status-only update and an update from generation 1 to 2. -/
theorem managedOCS_update_generation_filter_witness :
    ∃ ctl, SetupWithManager sampleReconciler = some ctl
      ∧ ctl.enqueue
          { Kind := .ManagedOCS, Change := .Update, MetaOld := sampleMeta "managedocs" "primary" 1,
            Obj := { Meta := sampleMeta "managedocs" "primary" 1, Object := [] } } = []
      ∧ ctl.enqueue
          { Kind := .ManagedOCS, Change := .Update, MetaOld := sampleMeta "managedocs" "primary" 1,
            Obj := { Meta := sampleMeta "managedocs" "primary" 2, Object := [] } } =
          [sampleRequest] := by
  obtain ⟨ctl, h, h1, -⟩ := managedOCS_update_generation_filter sampleReconciler
    { Kind := .ManagedOCS, Change := .Update, MetaOld := sampleMeta "managedocs" "primary" 1,
      Obj := { Meta := sampleMeta "managedocs" "primary" 1, Object := [] } } rfl rfl
  obtain ⟨ctl2, h3, -, h2⟩ := managedOCS_update_generation_filter sampleReconciler
    { Kind := .ManagedOCS, Change := .Update, MetaOld := sampleMeta "managedocs" "primary" 1,
      Obj := { Meta := sampleMeta "managedocs" "primary" 2, Object := [] } } rfl rfl
  have e : ctl2 = ctl := Option.some.inj (h3.symm.trans h)
  subst e
  exact ⟨ctl2, h, (h1 (by decide)).2, (h2 (by decide)).2⟩

/-- Witness of C9: an update of the add-on secret that keeps generation 1. -/
theorem generation_filter_scope_witness :
    ∃ ctl, SetupWithManager sampleReconciler = some ctl
      ∧ ctl.enqueue
          { Kind := .Secret, Change := .Update,
            MetaOld := sampleMeta "test-addon-secret" "primary" 1,
            Obj := { Meta := sampleMeta "test-addon-secret" "primary" 1,
                     Object := [("size", "2")] } } = [sampleRequest] := by
  obtain ⟨ctl, h, -, h1, -⟩ := generation_filter_scope sampleReconciler
  exact ⟨ctl, h, (h1 _ rfl (by decide)).2⟩

/-- Counterexample to C10: after the work item arrived at the only worker,
`Reconcile(req)` being called by the controller and no `RunReconcile` call
pending, no run without a call of `RunReconcile` moves the worker past the
receive of the start signal or invokes the inner reconciler. -/
theorem Reconcile_not_pass_through :
    ¬ ∃ es s1, (∀ e ∈ es, ∀ c : Nat, e ≠ Event.runReconcile c)
        ∧ run noopInner (initial ctrlOptions 1 ()) (Event.dequeue 0 sampleRequest :: es) = some s1
        ∧ (s1.workers[0]? ≠ some (WorkerPc.waitStart sampleRequest)
            ∨ s1.innerCallsOf 0 ≠ []) := by
  rintro ⟨es, s1, hes, hrun, hbad⟩
  have hrun2 : run noopInner sampleBlocked es = some s1 := hrun
  have hw : sampleBlocked.workers[0]? = some (WorkerPc.waitStart sampleRequest) := rfl
  have hq : ∀ c : Nat, sampleBlocked.callers[c]? ≠ some CallerPc.sendStart := by
    intro c; cases c <;> simp [sampleBlocked]
  obtain ⟨h1, h2, -⟩ := waiting_worker_run noopInner es hw hq hes hrun2
  rcases hbad with hbad | hbad
  · exact hbad h1
  · exact hbad (by rw [h2]; rfl)

/-- Witness of C10, amended: the waiting worker stays while another worker takes a work item. -/
theorem Reconcile_waits_for_start_signal_witness :
    ∃ s1, run noopInner sampleWaiting [.dequeue 1 sampleRequest] = some s1
      ∧ s1.workers[0]? = some (WorkerPc.waitStart sampleRequest)
      ∧ s1.innerCallsOf 0 = [] := by
  refine ⟨_, rfl, ?_⟩
  obtain ⟨h1, h2, -⟩ := Reconcile_waits_for_start_signal noopInner sampleWaiting _ 0
    sampleRequest [.dequeue 1 sampleRequest] rfl (by intro c; cases c <;> simp [sampleWaiting])
    (by intro e he c; simp at he; subst he; simp) rfl
  exact ⟨h1, h2⟩

/-! ## Signals, calls and what `RunReconcile` returns -/

/-- Replacing an element of a list moves the count of a predicate by the two elements. -/
theorem countP_set {α : Type} (p : α → Bool) (l : List α) (i : Nat) (a b : α)
    (h : l[i]? = some b) :
    (l.set i a).countP p + (if p b then 1 else 0) = l.countP p + (if p a then 1 else 0) := by
  induction l generalizing i with
  | nil => simp at h
  | cons x xs ih =>
    cases i with
    | zero =>
      simp only [List.getElem?_cons_zero, Option.some.injEq] at h
      subst h
      simp only [List.set_cons_zero, List.countP_cons]
      omega
    | succ n =>
      simp only [List.getElem?_cons_succ] at h
      have := ih n h
      simp only [List.set_cons_succ, List.countP_cons]
      omega

/-- An element that satisfies a predicate is counted. -/
theorem countP_pos_of_getElem? {α : Type} (p : α → Bool) (l : List α) (i : Nat) (b : α)
    (h : l[i]? = some b) (hb : p b = true) : 0 < l.countP p := by
  rw [List.countP_pos_iff]
  obtain ⟨hlt, hget⟩ := List.getElem?_eq_some.1 h
  exact ⟨b, hget ▸ List.getElem_mem hlt, hb⟩

theorem countInv_step {σ : Type} (inner : Inner σ) {s s1 : State σ} {e : Event}
    (hinv : CountInv s) (h : step inner s e = some s1) : CountInv s1 := by
  obtain ⟨h1, h2⟩ := hinv
  cases e with
  | dequeue w req =>
    simp only [step] at h
    split at h
    · rename_i hpc
      cases h
      have c1 := countP_set WorkerPc.atCallInner s.workers w (.waitStart req) _ hpc
      have c2 := countP_set WorkerPc.atSendDone s.workers w (.waitStart req) _ hpc
      simp only [WorkerPc.atCallInner, WorkerPc.atSendDone] at c1 c2
      simp only [CountInv, State.started, State.finished] at h1 h2 ⊢
      constructor <;> simp at c1 c2 ⊢ <;> omega
    · cases h
  | runReconcile c =>
    simp only [step] at h
    split at h
    · cases h; exact ⟨h1, h2⟩
    · cases h
  | start c w =>
    simp only [step] at h
    split at h
    · rename_i req hcl hpc
      cases h
      have c1 := countP_set WorkerPc.atCallInner s.workers w (.callInner req s.accepted) _ hpc
      have c2 := countP_set WorkerPc.atSendDone s.workers w (.callInner req s.accepted) _ hpc
      simp only [WorkerPc.atCallInner, WorkerPc.atSendDone] at c1 c2
      simp only [CountInv, State.started, State.finished] at h1 h2 ⊢
      constructor <;> simp at c1 c2 ⊢ <;> omega
    · cases h
  | invoke w =>
    simp only [step] at h
    split at h
    · rename_i req t hpc
      cases h
      have c1 := countP_set WorkerPc.atCallInner s.workers w (.running req t) _ hpc
      have c2 := countP_set WorkerPc.atSendDone s.workers w (.running req t) _ hpc
      simp only [WorkerPc.atCallInner, WorkerPc.atSendDone] at c1 c2
      simp only [CountInv, State.started, State.finished] at h1 h2 ⊢
      constructor <;> simp at c1 c2 ⊢ <;> omega
    · cases h
  | innerReturn w =>
    simp only [step] at h
    split at h
    · rename_i req t hpc
      cases h
      have c1 := countP_set WorkerPc.atCallInner s.workers w
        (.sendDone req (inner req s.store).1 t) _ hpc
      have c2 := countP_set WorkerPc.atSendDone s.workers w
        (.sendDone req (inner req s.store).1 t) _ hpc
      simp only [WorkerPc.atCallInner, WorkerPc.atSendDone] at c1 c2
      simp only [CountInv, State.started, State.finished] at h1 h2 ⊢
      constructor <;> simp at c1 c2 ⊢ <;> omega
    · cases h
  | done w c =>
    simp only [step] at h
    split at h
    · rename_i req out t u hpc hcl
      cases h
      have c1 := countP_set WorkerPc.atCallInner s.workers w (.ret req out) _ hpc
      have c2 := countP_set WorkerPc.atSendDone s.workers w (.ret req out) _ hpc
      simp only [WorkerPc.atCallInner, WorkerPc.atSendDone] at c1 c2
      simp only [CountInv, State.started, State.finished] at h1 h2 ⊢
      constructor <;> simp at c1 c2 ⊢ <;> omega
    · cases h
  | reconcileReturn w =>
    simp only [step] at h
    split at h
    · rename_i req out hpc
      cases h
      have c1 := countP_set WorkerPc.atCallInner s.workers w .idle _ hpc
      have c2 := countP_set WorkerPc.atSendDone s.workers w .idle _ hpc
      simp only [WorkerPc.atCallInner, WorkerPc.atSendDone] at c1 c2
      simp only [CountInv, State.started, State.finished] at h1 h2 ⊢
      constructor <;> simp at c1 c2 ⊢ <;> omega
    · cases h
  | runReconcileReturn c =>
    simp only [step] at h
    split at h
    · cases h; exact ⟨h1, h2⟩
    · cases h

/-- Every run keeps the counting invariant. -/
theorem countInv_run {σ : Type} (inner : Inner σ) (es : List Event) :
    ∀ {s s1 : State σ}, CountInv s → run inner s es = some s1 → CountInv s1 := by
  induction es with
  | nil =>
    intro s s1 hinv h
    simp only [run] at h
    cases h
    exact hinv
  | cons e es ih =>
    intro s s1 hinv h
    simp only [run] at h
    cases hstep : step inner s e with
    | none => rw [hstep] at h; cases h
    | some s2 =>
      rw [hstep] at h
      exact ih (countInv_step inner hinv hstep) h

/-- The initial state has the counting invariant, whatever the number of workers. -/
theorem countInv_initial {σ : Type} (options : Options) (callers : Nat) (store : σ) :
    CountInv (initial options callers store) := by
  simp [CountInv, initial, State.started, State.finished, List.countP_replicate,
    WorkerPc.atCallInner, WorkerPc.atSendDone]

/-- C12: in every state reached from the initial state, for any number of
workers and callers, the number of inner calls started does not exceed the
number of start signals that went through `startReconcile`, and the number of
done signals received by callers does not exceed the number of inner calls
returned; the inner reconciler can be invoked only where a received start
signal is still unused, and a caller can be released only where a returned
inner call is still unsignalled. -/
theorem inner_after_signal_release_after_return {σ : Type} (inner : Inner σ)
    (options : Options) (callers : Nat) (store : σ) (es : List Event) (s : State σ)
    (h : run inner (initial options callers store) es = some s) :
    s.started ≤ s.accepted
      ∧ s.released.length ≤ s.finished
      ∧ (∀ (w : Nat) (s1 : State σ), step inner s (.invoke w) = some s1 →
          s.started < s.accepted)
      ∧ (∀ (w c : Nat) (s1 : State σ), step inner s (.done w c) = some s1 →
          s.released.length < s.finished) := by
  obtain ⟨h1, h2⟩ := countInv_run inner es (countInv_initial options callers store) h
  refine ⟨by omega, by omega, ?_, ?_⟩
  · intro w s1 hs
    simp only [step] at hs
    split at hs
    · rename_i req t hpc
      have := countP_pos_of_getElem? WorkerPc.atCallInner s.workers w _ hpc rfl
      omega
    · cases hs
  · intro w c s1 hs
    simp only [step] at hs
    split at hs
    · rename_i req out t u hpc hcl
      have := countP_pos_of_getElem? WorkerPc.atSendDone s.workers w _ hpc rfl
      omega
    · cases hs

/-- Witness of C12: the inner call has returned and the done signal is not yet received. -/
theorem inner_after_signal_release_after_return_witness :
    run noopInner (initial ctrlOptions 2 ())
        [.dequeue 0 sampleRequest, .runReconcile 0, .runReconcile 1, .start 0 0, .invoke 0,
         .innerReturn 0] = some sampleSending
      ∧ sampleSending.started ≤ sampleSending.accepted
      ∧ sampleSending.released.length < sampleSending.finished :=
  ⟨rfl,
    (inner_after_signal_release_after_return noopInner ctrlOptions 2 ()
      [.dequeue 0 sampleRequest, .runReconcile 0, .runReconcile 1, .start 0 0, .invoke 0,
       .innerReturn 0] sampleSending rfl).1,
    (inner_after_signal_release_after_return noopInner ctrlOptions 2 ()
      [.dequeue 0 sampleRequest, .runReconcile 0, .runReconcile 1, .start 0 0, .invoke 0,
       .innerReturn 0] sampleSending rfl).2.2.2 0 0 _ rfl⟩

/-- Counterexample to C11: no reading of what `RunReconcile` leaves with its
caller is an error exactly when the pass it waited for returned one. A pass
that fails and a pass that succeeds, driven from the same state, leave the
caller with the same view. -/
theorem RunReconcile_reports_no_error :
    ¬ ∃ errorOf : Option CallerPc × Nat → Option String,
        ∀ (inner : Inner Unit) (s1 : State Unit),
          run inner sampleBlocked (passEvents 0 0) = some s1 →
          ((errorOf (s1.callerView 0)).isSome = true ↔
            (inner sampleRequest ()).1.err.isSome = true) := by
  rintro ⟨errorOf, herr⟩
  have hok := herr noopInner _ rfl
  have hfail := herr failingInner _ rfl
  have hview : (errorOf (some CallerPc.idle, 1)).isSome = true := hfail.2 rfl
  have hnone : (noopInner sampleRequest ()).1.err.isSome = true := hok.1 hview
  exact absurd hnone (by decide)

/-- C11, amended: `RunReconcile` reports no outcome. Driven from a worker that
waits in `Reconcile(req)`, it returns once the pass has returned, and what it
leaves with its caller is the same whatever the inner reconciler returned;
the `(result, error)` pair of the pass is returned by `Reconcile` to the
controller worker. -/
theorem RunReconcile_returns_no_outcome {σ : Type} (inner1 inner2 : Inner σ) (s : State σ)
    (c w : Nat) (req : Request)
    (hw : s.workers[w]? = some (WorkerPc.waitStart req))
    (hc : s.callers[c]? = some CallerPc.idle) :
    ∃ s1 s2, run inner1 s (passEvents c w) = some s1
      ∧ run inner2 s (passEvents c w) = some s2
      ∧ s1.callerView c = (some CallerPc.idle, s.runReconcileReturns + 1)
      ∧ s2.callerView c = s1.callerView c
      ∧ s1.reconcileReturns = s.reconcileReturns ++ [(w, req, (inner1 req s.store).1)]
      ∧ s2.reconcileReturns = s.reconcileReturns ++ [(w, req, (inner2 req s.store).1)] := by
  have hclt : c < s.callers.length := (List.getElem?_eq_some.1 hc).1
  obtain ⟨s1, h1, -, -, -, -, r1, n1, -, c1⟩ := run_passEvents inner1 s hw hc
  obtain ⟨s2, h2, -, -, -, -, r2, n2, -, c2⟩ := run_passEvents inner2 s hw hc
  have v1 : s1.callerView c = (some CallerPc.idle, s.runReconcileReturns + 1) := by
    simp only [State.callerView, c1, n1, List.getElem?_set_self hclt]
  have v2 : s2.callerView c = (some CallerPc.idle, s.runReconcileReturns + 1) := by
    simp only [State.callerView, c2, n2, List.getElem?_set_self hclt]
  exact ⟨s1, s2, h1, h2, v1, v2.trans v1.symm, r1, r2⟩

/-- Witness of C11, amended: a failing and a succeeding pass from the same state. -/
theorem RunReconcile_returns_no_outcome_witness :
    ∃ s1 s2, run failingInner sampleBlocked (passEvents 0 0) = some s1
      ∧ run noopInner sampleBlocked (passEvents 0 0) = some s2
      ∧ s2.callerView 0 = s1.callerView 0
      ∧ s1.reconcileReturns = [(0, sampleRequest, failure)]
      ∧ s2.reconcileReturns = [(0, sampleRequest, success)] := by
  obtain ⟨s1, s2, h1, h2, -, h3, h4, h5⟩ :=
    RunReconcile_returns_no_outcome failingInner noopInner sampleBlocked 0 0 sampleRequest
      rfl rfl
  exact ⟨s1, s2, h1, h2, h3, h4, h5⟩

end OcsOsdDeployer
